import Mathlib

/-!
# Verification of the heat-map aggregation pipeline

Shallow embedding of `data-pipeline/scripts/generate_heatmap_data_backup.py`
(function `process_heatmap_data`), the replicate-level aggregation and
matrix-construction engine of the repository.  Measurements are embedded as
records with exact rational responses, pandas data frames as lists, Python
dicts as association lists with insert-or-update semantics, and the
`int(...)` failure on an empty aggregate as an `Except.error` result.
-/

namespace AtlasBio

/-- The 20 canonical amino acids, exactly as `get_canonical_amino_acids`
returns them. -/
def get_canonical_amino_acids : List String :=
  ["A", "C", "D", "E", "F", "G", "H", "I", "K", "L",
   "M", "N", "P", "Q", "R", "S", "T", "V", "W", "Y"]

/-- The fixed dose mapping `{5: 'low', 30: 'medium', 100: 'high'}`;
`pandas.Series.map` yields NaN (here `none`) for keys absent from the dict. -/
def dose_mapping (c : ℚ) : Option String :=
  if c = 5 then some "low"
  else if c = 30 then some "medium"
  else if c = 100 then some "high"
  else none

/-- One replicate-level row of the master qDMS CSV, restricted to the columns
`process_heatmap_data` reads. -/
structure Measurement where
  species : String
  gene : String
  drug : String
  protein_start : ℤ
  ref_aa : String
  alt_aa : String
  conc : ℚ
  netgr_obs : ℚ
deriving DecidableEq, Repr

/-- The grouping key of
`groupby(['species','protein_start','alt_aa','ref_aa','dose_level','Gene','Drug'])`. -/
structure GroupKey where
  species : String
  protein_start : ℤ
  alt_aa : String
  ref_aa : String
  dose_level : String
  gene : String
  drug : String
deriving DecidableEq, Repr

/-- Group key of a measurement; `none` when its concentration is unmapped
(the NaN dose level that `groupby` silently drops). -/
def keyOf (m : Measurement) : Option GroupKey :=
  (dose_mapping m.conc).map fun d =>
    { species := m.species, protein_start := m.protein_start,
      alt_aa := m.alt_aa, ref_aa := m.ref_aa, dose_level := d,
      gene := m.gene, drug := m.drug }

/-- `df_canonical`: the rows whose alternate amino acid is canonical. -/
def df_canonical (ms : List Measurement) : List Measurement :=
  ms.filter fun m => get_canonical_amino_acids.contains m.alt_aa

/-- The classified rows that reach the aggregation: canonical alternate
amino acid and a mapped dose level, each carrying its group key and its
`netgr_obs` response. -/
def classified (ms : List Measurement) : List (GroupKey × ℚ) :=
  (df_canonical ms).filterMap fun m => (keyOf m).map fun k => (k, m.netgr_obs)

/-- Responses of one `groupby` group. -/
def groupResponsesR (rows : List (GroupKey × ℚ)) (k : GroupKey) : List ℚ :=
  rows.filterMap fun r => if r.1 = k then some r.2 else none

/-- Python `sum`-style arithmetic mean of a group (pandas `mean`). -/
def listMean (xs : List ℚ) : ℚ := xs.sum / xs.length

/-- Sample variance with divisor `count - 1` (pandas `std` is its square
root, with the default `ddof = 1`). -/
def sampleVar (xs : List ℚ) : ℚ :=
  ((xs.map fun x => (x - listMean xs) ^ 2).sum) / ((xs.length : ℚ) - 1)

/-- pandas `std` of a group, represented by its exact square: the sample
standard deviation is `Real.sqrt` of this value.  It is defined only when
the group has at least two members, otherwise NaN (here `none`).  Storing
the square keeps the whole pipeline computable; the nullness and count
structure of the source is preserved verbatim. -/
def pandasStdSq (xs : List ℚ) : Option ℚ :=
  if 2 ≤ xs.length then some (sampleVar xs) else none

/-- `float(row['std']) if not pd.isna(row['std']) else 0`, again represented
by the square of the stored float (`0 ^ 2 = 0`, so the NaN-to-`0` coercion
is the same on squares). -/
def std_value_sq (xs : List ℚ) : ℚ := (pandasStdSq xs).getD 0

/-! ## Python dicts as association lists

A Python dict preserves insertion order; assigning to an existing key
updates it in place, assigning to a fresh key appends it. -/

/-- `d[k] = v` on a Python dict. -/
def dictInsert {V : Type} : List (String × V) → String → V → List (String × V)
  | [], k, v => [(k, v)]
  | (k1, v1) :: rest, k, v =>
    if k1 = k then (k, v) :: rest else (k1, v1) :: dictInsert rest k v

/-- `d.get(k)` on a Python dict. -/
def dictGet {V : Type} : List (String × V) → String → Option V
  | [], _ => none
  | (k1, v1) :: rest, k => if k1 = k then some v1 else dictGet rest k

/-- `list(d.keys())` on a Python dict. -/
def dictKeys {V : Type} (d : List (String × V)) : List String :=
  d.map Prod.fst

/-! ## Sorted iteration order of the grouped statistics

`groupby(..., sort=True)` iterates groups in ascending lexicographic order
of the key tuple; characters, strings and integers compare as in Python. -/

/-- Lexicographic comparison of character lists by code point. -/
def lexLt : List Char → List Char → Bool
  | [], [] => false
  | [], _ :: _ => true
  | _ :: _, [] => false
  | c :: cs, d :: ds =>
    if c.toNat < d.toNat then true
    else if d.toNat < c.toNat then false
    else lexLt cs ds

/-- Python `<` on strings. -/
def strLt (a b : String) : Bool := lexLt a.data b.data

/-- Ascending order on the 7-component `groupby` key tuple. -/
def keyLE (a b : GroupKey) : Bool :=
  if a.species ≠ b.species then strLt a.species b.species
  else if a.protein_start ≠ b.protein_start then decide (a.protein_start < b.protein_start)
  else if a.alt_aa ≠ b.alt_aa then strLt a.alt_aa b.alt_aa
  else if a.ref_aa ≠ b.ref_aa then strLt a.ref_aa b.ref_aa
  else if a.dose_level ≠ b.dose_level then strLt a.dose_level b.dose_level
  else if a.gene ≠ b.gene then strLt a.gene b.gene
  else if a.drug ≠ b.drug then strLt a.drug b.drug
  else true

/-- The distinct group keys of `grouped_stats`, in iteration order. -/
def groupedKeysR (rows : List (GroupKey × ℚ)) : List GroupKey :=
  List.insertionSort (fun a b => keyLE a b = true) (rows.map Prod.fst).dedup

/-- `sorted(grouped_stats['protein_start'].unique())`. -/
def allPositionsR (rows : List (GroupKey × ℚ)) : List ℤ :=
  List.insertionSort (· ≤ ·) (rows.map fun r => r.1.protein_start).dedup

/-! ## The matrix cells -/

/-- One `{value, std, count}` cell of a dose level; `std` is stored via its
exact square (see `pandasStdSq`). -/
structure DoseCell where
  value : Option ℚ
  stdSq : Option ℚ
  count : ℕ
deriving DecidableEq, Repr

/-- The `{'value': None, 'std': None, 'count': 0}` placeholder. -/
def nullDoseCell : DoseCell := { value := none, stdSq := none, count := 0 }

/-- The per-amino-acid entry of the matrix: three dose cells plus the
`ref_aa` field (`none` models Python `None`). -/
structure AACell where
  low : DoseCell
  medium : DoseCell
  high : DoseCell
  ref_aa : Option String
deriving DecidableEq, Repr

/-- The all-null placeholder amino-acid cell inserted by the fill loop. -/
def nullAACell : AACell :=
  { low := nullDoseCell, medium := nullDoseCell, high := nullDoseCell, ref_aa := none }

/-- `position_aa_matrix`: position string → amino acid → cell. -/
abbrev Matrix := List (String × List (String × AACell))

/-- The aggregated cell of one grouped row (`mean`, `std`, `count`). -/
def doseCellOf (xs : List ℚ) : DoseCell :=
  { value := some (listMean xs), stdSq := some (std_value_sq xs), count := xs.length }

/-- Store a dose cell under the row's `dose_level` name. -/
def setDose (c : AACell) (d : String) (dc : DoseCell) : AACell :=
  if d = "low" then { c with low := dc }
  else if d = "medium" then { c with medium := dc }
  else if d = "high" then { c with high := dc }
  else c

/-- `ref_aa if ref_aa else 'X'`: the unknown-reference sentinel coercion. -/
def refCoerce (r : String) : String := if r = "" then "X" else r

/-- One iteration of the pivot loop (lines 72-100 of the source): write the
grouped row of key `k` into the matrix. -/
def pivotStepR (rows : List (GroupKey × ℚ)) (mat : Matrix) (k : GroupKey) : Matrix :=
  let xs := groupResponsesR rows k
  let pstr := toString k.protein_start
  let inner := (dictGet mat pstr).getD []
  let base : AACell :=
    (dictGet inner k.alt_aa).getD
      { low := nullDoseCell, medium := nullDoseCell, high := nullDoseCell,
        ref_aa := some k.ref_aa }
  let c1 := setDose base k.dose_level (doseCellOf xs)
  let c2 := { c1 with ref_aa := some (refCoerce k.ref_aa) }
  dictInsert mat pstr (dictInsert inner k.alt_aa c2)

/-- The matrix after the pivot loop, before gap filling. -/
def pivotMatrixR (rows : List (GroupKey × ℚ)) : Matrix :=
  (groupedKeysR rows).foldl (pivotStepR rows) []

/-- The inner dict the pivot step starts from (`{}` if the position is
new). -/
def pivotInnerOld (mat : Matrix) (k : GroupKey) : List (String × AACell) :=
  (dictGet mat (toString k.protein_start)).getD []

/-- The cell the pivot step starts from (the all-null skeleton if the
amino acid is new at this position). -/
def pivotBase (mat : Matrix) (k : GroupKey) : AACell :=
  (dictGet (pivotInnerOld mat k) k.alt_aa).getD
    { low := nullDoseCell, medium := nullDoseCell, high := nullDoseCell,
      ref_aa := some k.ref_aa }

/-- The cell the pivot step stores. -/
def pivotCell (rows : List (GroupKey × ℚ)) (mat : Matrix) (k : GroupKey) : AACell :=
  { setDose (pivotBase mat k) k.dose_level (doseCellOf (groupResponsesR rows k)) with
    ref_aa := some (refCoerce k.ref_aa) }

/-- One iteration of the fill loop (lines 120-131): ensure position `p` has
an entry carrying all 20 canonical amino acids, null placeholders added for
the missing ones. -/
def fillStepR (mat : Matrix) (p : ℤ) : Matrix :=
  let pstr := toString p
  let inner := (dictGet mat pstr).getD []
  let filled := get_canonical_amino_acids.foldl
    (fun d aa => if (dictGet d aa).isSome then d else dictInsert d aa nullAACell) inner
  dictInsert mat pstr filled

/-- The gap-filling of one inner dict: ensure all canonical amino-acid
keys are present, adding null placeholders for the missing ones. -/
def fillInner (inner : List (String × AACell)) : List (String × AACell) :=
  get_canonical_amino_acids.foldl
    (fun d aa => if (dictGet d aa).isSome then d else dictInsert d aa nullAACell) inner

/-- The dense matrix after gap filling. -/
def finalMatrixR (rows : List (GroupKey × ℚ)) : Matrix :=
  (allPositionsR rows).foldl fillStepR (pivotMatrixR rows)

/-! ## The variant lookup (lines 102-118, built from the pre-fill matrix) -/

/-- One `variant_lookup` entry. -/
structure LookupEntry where
  id : String
  position : ℤ
  ref_aa : String
  alt_aa : String
  low_value : Option ℚ
  medium_value : Option ℚ
  high_value : Option ℚ
  count : ℕ
deriving DecidableEq, Repr

/-- Build a lookup entry from the cell stored at `(pstr, aa)`; `r` is its
(non-`None`) `ref_aa` string and `'X'` is displayed as `'?'` in the id. -/
def mkLookupEntry (pstr aa : String) (c : AACell) (r : String) : LookupEntry :=
  let rv := if r = "X" then "?" else r
  { id := rv ++ pstr ++ aa,
    position := (pstr.toInt?).getD 0,
    ref_aa := r, alt_aa := aa,
    low_value := c.low.value, medium_value := c.medium.value,
    high_value := c.high.value,
    count := if c.low.value.isSome then c.low.count else 0 }

/-- One iteration of the lookup loop over the cells of one position:
create an entry when the key is not the literal `'ref_aa'` and the cell's
`ref_aa` is truthy (neither `None` nor empty). -/
def lookupStep (pstr : String) (lk : List (String × LookupEntry))
    (ac : String × AACell) : List (String × LookupEntry) :=
  match ac.2.ref_aa with
  | none => lk
  | some r =>
    if ac.1 ≠ "ref_aa" ∧ r ≠ "" then
      dictInsert lk (pstr ++ "_" ++ ac.1) (mkLookupEntry pstr ac.1 ac.2 r)
    else lk

/-- The truthiness guard of the lookup loop. -/
def EntryGuard (ac : String × AACell) : Prop :=
  ∃ r, ac.2.ref_aa = some r ∧ ¬ ac.1 = "ref_aa" ∧ ¬ r = ""

/-- The `variant_lookup` dict: iterate the (pre-fill) matrix, creating one
entry per qualifying cell. -/
def lookupOf (mat : Matrix) : List (String × LookupEntry) :=
  mat.foldl (fun lk pr => pr.2.foldl (lookupStep pr.1) lk) []

/-! ## Value ranges for colour scaling (lines 132-180) -/

/-- Python `min(xs)` with the `if xs else d` default. -/
def pyMinD (xs : List ℚ) (d : ℚ) : ℚ :=
  match xs with
  | [] => d
  | x :: r => r.foldl min x

/-- Python `max(xs)` with the `if xs else d` default. -/
def pyMaxD (xs : List ℚ) (d : ℚ) : ℚ :=
  match xs with
  | [] => d
  | x :: r => r.foldl max x

/-- The non-null values of one dose level, in matrix iteration order. -/
def doseValues (mat : Matrix) (sel : AACell → DoseCell) : List ℚ :=
  (mat.map fun pr => pr.2.filterMap fun ac => (sel ac.2).value).flatten

/-- A `{min, max}` pair of the `value_range` metadata. -/
structure RangePair where
  rmin : ℚ
  rmax : ℚ
deriving DecidableEq, Repr

/-- The `value_range` metadata: global and per-dose min/max with the
`(0, 1)` defaults on empty value sets. -/
structure ValueRange where
  gmin : ℚ
  gmax : ℚ
  low : RangePair
  medium : RangePair
  high : RangePair
deriving DecidableEq, Repr

/-- Compute the `value_range` of a matrix. -/
def valueRangeOf (mat : Matrix) : ValueRange :=
  let lows := doseValues mat (fun c => c.low)
  let meds := doseValues mat (fun c => c.medium)
  let highs := doseValues mat (fun c => c.high)
  let combined := lows ++ meds ++ highs
  { gmin := pyMinD combined 0, gmax := pyMaxD combined 1,
    low := { rmin := pyMinD lows 0, rmax := pyMaxD lows 1 },
    medium := { rmin := pyMinD meds 0, rmax := pyMaxD meds 1 },
    high := { rmin := pyMinD highs 0, rmax := pyMaxD highs 1 } }

/-! ## The full pipeline result -/

/-- The claim-relevant parts of the heat-map document. -/
structure Heatmap where
  position_min : ℤ
  position_max : ℤ
  matrix : Matrix
  positions : List ℤ
  variant_lookup : List (String × LookupEntry)
  value_range : ValueRange
deriving DecidableEq, Repr

/-- The pipeline on classified rows.  `int(grouped['protein_start'].min())`
raises `ValueError: cannot convert float NaN to integer` when the grouped
frame is empty, embedded as the `Except.error` branch. -/
def processRows (rows : List (GroupKey × ℚ)) : Except String Heatmap :=
  match allPositionsR rows with
  | [] => .error "cannot convert float NaN to integer"
  | p :: ps =>
    .ok { position_min := ps.foldl min p,
          position_max := ps.foldl max p,
          matrix := finalMatrixR rows,
          positions := p :: ps,
          variant_lookup := lookupOf (pivotMatrixR rows),
          value_range := valueRangeOf (finalMatrixR rows) }

/-- `process_heatmap_data` on an in-memory measurement list (the CSV
loading, logging and JSON dumping are external collaborators). -/
def process_heatmap_data (ms : List Measurement) : Except String Heatmap :=
  processRows (classified ms)

/-! ## Accessors used to state the claims -/

/-- The dose entry named `d` of an amino-acid cell. -/
def getDose (c : AACell) (d : String) : DoseCell :=
  if d = "low" then c.low
  else if d = "medium" then c.medium
  else if d = "high" then c.high
  else nullDoseCell

/-- The dose cell at `matrix[pstr][aa][d]` of a pipeline result. -/
def okDoseAt (e : Except String Heatmap) (pstr aa d : String) : Option DoseCell :=
  e.toOption.bind fun h =>
    (dictGet h.matrix pstr).bind fun inner =>
      (dictGet inner aa).map fun c => getDose c d

/-- The `value` field at `matrix[pstr][aa][d]`. -/
def okValueAt (e : Except String Heatmap) (pstr aa d : String) : Option (Option ℚ) :=
  (okDoseAt e pstr aa d).map fun c => c.value

/-- The `count` field at `matrix[pstr][aa][d]`. -/
def okCountAt (e : Except String Heatmap) (pstr aa d : String) : Option ℕ :=
  (okDoseAt e pstr aa d).map fun c => c.count

/-- The squared `std` field at `matrix[pstr][aa][d]`. -/
def okStdSqAt (e : Except String Heatmap) (pstr aa d : String) : Option (Option ℚ) :=
  (okDoseAt e pstr aa d).map fun c => c.stdSq

/-- The `ref_aa` field at `matrix[pstr][aa]`. -/
def okRefAt (e : Except String Heatmap) (pstr aa : String) : Option (Option String) :=
  e.toOption.bind fun h =>
    (dictGet h.matrix pstr).bind fun inner =>
      (dictGet inner aa).map fun c => c.ref_aa

/-- The amino-acid key list at `matrix[pstr]`. -/
def okAAKeys (e : Except String Heatmap) (pstr : String) : Option (List String) :=
  e.toOption.bind fun h => (dictGet h.matrix pstr).map dictKeys

/-- The position key list of the matrix. -/
def okMatrixKeys (e : Except String Heatmap) : Option (List String) :=
  e.toOption.map fun h => dictKeys h.matrix

/-- The `positions` output list. -/
def okPositions (e : Except String Heatmap) : Option (List ℤ) :=
  e.toOption.map fun h => h.positions

/-- The key list of `variant_lookup`. -/
def okLookupKeys (e : Except String Heatmap) : Option (List String) :=
  e.toOption.map fun h => dictKeys h.variant_lookup

/-- The number of `variant_lookup` entries. -/
def okLookupLen (e : Except String Heatmap) : Option ℕ :=
  e.toOption.map fun h => h.variant_lookup.length

/-- The `id` of the lookup entry stored under `key`. -/
def okLookupId (e : Except String Heatmap) (key : String) : Option String :=
  e.toOption.bind fun h => (dictGet h.variant_lookup key).map fun en => en.id

/-- The `value_range` of a pipeline result. -/
def okValueRange (e : Except String Heatmap) : Option ValueRange :=
  e.toOption.map fun h => h.value_range

/-! ## Aggregate accessors (the `mean`, `std`, `count` columns of
`grouped_stats`) -/

/-- The `mean` column of a group. -/
def aggMean (rows : List (GroupKey × ℚ)) (k : GroupKey) : ℚ :=
  listMean (groupResponsesR rows k)

/-- The (squared) `std` column of a group. -/
def aggStdSq (rows : List (GroupKey × ℚ)) (k : GroupKey) : Option ℚ :=
  pandasStdSq (groupResponsesR rows k)

/-- The `count` column of a group. -/
def aggCount (rows : List (GroupKey × ℚ)) (k : GroupKey) : ℕ :=
  (groupResponsesR rows k).length

/-! ## Predicates used by the invariant theorems -/

/-- A dose cell of the built matrix is either the null placeholder or the
aggregate of a non-empty replicate list. -/
def GoodDose (c : DoseCell) : Prop :=
  c = nullDoseCell ∨ ∃ xs : List ℚ, xs ≠ [] ∧ c = doseCellOf xs

/-- A stored reference amino acid originates, coerced, from one of the
aggregated groups. -/
def RefFromGroups (rows : List (GroupKey × ℚ)) (r : String) : Prop :=
  ∃ k, k ∈ groupedKeysR rows ∧ r = refCoerce k.ref_aa

/-- Every dose entry of a built cell is the null placeholder or a
non-empty aggregate, and its `ref_aa` is either Python `None` or the
coerced reference of an aggregated group. -/
def CellW (rows : List (GroupKey × ℚ)) (c : AACell) : Prop :=
  GoodDose c.low ∧ GoodDose c.medium ∧ GoodDose c.high
  ∧ (c.ref_aa = none
      ∨ ∃ k, k ∈ groupedKeysR rows ∧ c.ref_aa = some (refCoerce k.ref_aa))

/-- All cells reachable in a matrix satisfy `Ψ` at their amino-acid key. -/
def CellsOK (Ψ : AACell → Prop) (mat : Matrix) : Prop :=
  ∀ P inner aa c, dictGet mat P = some inner → dictGet inner aa = some c → Ψ c

/-- All amino-acid keys of every inner dict are canonical and distinct. -/
def KeysOK (mat : Matrix) : Prop :=
  ∀ P inner, dictGet mat P = some inner →
    (∀ a ∈ dictKeys inner, a ∈ get_canonical_amino_acids)
    ∧ (dictKeys inner).Nodup

/-- An inner dict carries every canonical amino-acid key. -/
def FillDone (inner : List (String × AACell)) : Prop :=
  ∀ aa ∈ get_canonical_amino_acids, aa ∈ dictKeys inner

/-- The group-key positions of the classified rows (membership view). -/
def classifiedPositions (ms : List Measurement) : List ℤ :=
  (classified ms).map fun r => r.1.protein_start

/-- The `(position, alternate amino acid)` pairs of the classified rows. -/
def classifiedPairs (ms : List Measurement) : List (ℤ × String) :=
  (classified ms).map fun r => (r.1.protein_start, r.1.alt_aa)

/-- The `f"{position}_{aa}"` lookup key. -/
def pairKey (p : ℤ) (aa : String) : String := toString p ++ "_" ++ aa

/-- Reference decimal digit list of a natural number (most significant
first), used to reason about `Nat.repr`. -/
def natDigs (n : ℕ) : List Char :=
  if _h : n < 10 then [Nat.digitChar n]
  else natDigs (n / 10) ++ [Nat.digitChar (n % 10)]
decreasing_by exact Nat.div_lt_self (by omega) (by omega)

/-- Following the words of claim C10 only (not the source): the strictly
ascending list of distinct positions having at least one
canonical-amino-acid measurement, mapped or not.  Used to compare the
claimed position list with the one the code produces. -/
def spec_canonicalObservedPositions (ms : List Measurement) : List ℤ :=
  List.insertionSort (· ≤ ·) ((df_canonical ms).map fun m => m.protein_start).dedup

/-! ## Concrete inputs for witnesses and counterexamples -/

/-- Replicate 1 of the spec's T315I/Imatinib scenario (`netgr_obs` −0.02). -/
def exRep1 : Measurement :=
  { species := "T315I", gene := "ABL1", drug := "Imatinib", protein_start := 315,
    ref_aa := "T", alt_aa := "I", conc := 5, netgr_obs := -1/50 }

/-- Replicate 2 of the spec's T315I/Imatinib scenario (`netgr_obs` −0.04). -/
def exRep2 : Measurement :=
  { species := "T315I", gene := "ABL1", drug := "Imatinib", protein_start := 315,
    ref_aa := "T", alt_aa := "I", conc := 5, netgr_obs := -1/25 }

/-- The grouped key of the two scenario replicates. -/
def exKey : GroupKey :=
  { species := "T315I", protein_start := 315, alt_aa := "I", ref_aa := "T",
    dose_level := "low", gene := "ABL1", drug := "Imatinib" }

/-- Like `exRep1` but in a different `species` row group. -/
def exSpecA : Measurement := { exRep1 with species := "vA" }

/-- Like `exRep2` but in a different `species` row group. -/
def exSpecB : Measurement := { exRep2 with species := "vB" }

/-- A canonical measurement with the unmapped concentration 17. -/
def exUnmapped : Measurement :=
  { species := "T315I", gene := "ABL1", drug := "Imatinib", protein_start := 315,
    ref_aa := "T", alt_aa := "I", conc := 17, netgr_obs := -1/10 }

/-- A single measurement at the mapped medium dose with response 5. -/
def exMed : Measurement :=
  { species := "M1A", gene := "ABL1", drug := "Imatinib", protein_start := 1,
    ref_aa := "M", alt_aa := "A", conc := 30, netgr_obs := 5 }

/-- A mapped canonical measurement at position 3. -/
def exPos3 : Measurement :=
  { species := "K3A", gene := "ABL1", drug := "Imatinib", protein_start := 3,
    ref_aa := "K", alt_aa := "A", conc := 5, netgr_obs := 1 }

/-- A canonical measurement at position 7 whose concentration 17 is
unmapped. -/
def exPos7 : Measurement :=
  { species := "K7A", gene := "ABL1", drug := "Imatinib", protein_start := 7,
    ref_aa := "K", alt_aa := "A", conc := 17, netgr_obs := 1 }

/-- A small matrix whose three dose-value lists are all non-empty. -/
def exMatrix : Matrix :=
  [("1", [("A", { low := { value := some 2, stdSq := some 0, count := 2 },
                  medium := { value := some 3, stdSq := some 0, count := 2 },
                  high := { value := some 5, stdSq := some 0, count := 2 },
                  ref_aa := some "M" })])]

/-- The amino-acid key list of the scenario matrix at position 315. -/
def exKeys315 : List String :=
  ["I", "A", "C", "D", "E", "F", "G", "H", "K", "L",
   "M", "N", "P", "Q", "R", "S", "T", "V", "W", "Y"]

/-! ## Lemmas on classification -/

theorem classified_append (l1 l2 : List Measurement) :
    classified (l1 ++ l2) = classified l1 ++ classified l2 := by
  simp [classified, df_canonical, List.filter_append, List.filterMap_append]

theorem classified_nil : classified [] = [] := rfl

theorem classified_cons_of_not {m : Measurement} (t : List Measurement)
    (hc : m.alt_aa ∉ get_canonical_amino_acids) :
    classified (m :: t) = classified t := by
  simp [classified, df_canonical, List.filter_cons, hc]

theorem classified_cons_of_none {m : Measurement} (t : List Measurement)
    (hk : keyOf m = none) :
    classified (m :: t) = classified t := by
  by_cases hc : m.alt_aa ∈ get_canonical_amino_acids
  · simp [classified, df_canonical, List.filter_cons, List.filterMap_cons, hc, hk]
  · exact classified_cons_of_not t hc

theorem classified_cons_of_some {m : Measurement} (t : List Measurement)
    {k0 : GroupKey} (hc : m.alt_aa ∈ get_canonical_amino_acids)
    (hk : keyOf m = some k0) :
    classified (m :: t) = (k0, m.netgr_obs) :: classified t := by
  simp [classified, df_canonical, List.filter_cons, List.filterMap_cons, hc, hk]

theorem allPositionsR_nil_iff (rows : List (GroupKey × ℚ)) :
    allPositionsR rows = [] ↔ rows = [] := by
  cases rows with
  | nil => simp [allPositionsR]
  | cons r t =>
    constructor
    · intro h
      exfalso
      have hm : r.1.protein_start ∈
          List.insertionSort (· ≤ ·) ((r :: t).map fun x => x.1.protein_start).dedup := by
        rw [(List.perm_insertionSort _ _).mem_iff, List.mem_dedup]
        exact List.mem_map_of_mem _ (List.mem_cons_self r t)
      rw [show List.insertionSort (· ≤ ·) ((r :: t).map fun x => x.1.protein_start).dedup
          = allPositionsR (r :: t) from rfl, h] at hm
      exact absurd hm (List.not_mem_nil _)
    · intro h
      exact absurd h (List.cons_ne_nil r t)

/-- C4, amended: the pipeline does not degrade gracefully on an empty
measurement set; it fails (the `int(...)` conversion of a NaN position
range) exactly when no measurement survives classification. -/
theorem claim_C4_empty_fails (ms : List Measurement) :
    (process_heatmap_data ms).toOption = none ↔ classified ms = [] := by
  unfold process_heatmap_data processRows
  rcases h : allPositionsR (classified ms) with _ | ⟨p, ps⟩
  · simp [Except.toOption, (allPositionsR_nil_iff _).mp h]
  · have : ¬ classified ms = [] := by
      intro hnil
      rw [hnil] at h
      simp [allPositionsR] at h
    simp [Except.toOption, this]

/-- C4, counterexample to the claim as stated: on the empty input the
pipeline raises the NaN-conversion error instead of producing an empty
result document. -/
theorem claim_C4_cex :
    process_heatmap_data [] = .error "cannot convert float NaN to integer" := rfl

/-- C7: concentrations outside the fixed `{5, 30, 100}` table classify to
`None`, and a measurement with an unmapped concentration is silently and
completely absent from the pipeline result: removing it changes nothing. -/
theorem claim_C7_unmapped_excluded (c : ℚ) (m : Measurement)
    (ms1 ms2 : List Measurement) :
    (c ≠ 5 → c ≠ 30 → c ≠ 100 → dose_mapping c = none)
    ∧ (dose_mapping m.conc = none →
        process_heatmap_data (ms1 ++ m :: ms2) = process_heatmap_data (ms1 ++ ms2)) := by
  constructor
  · intro h5 h30 h100
    simp [dose_mapping, h5, h30, h100]
  · intro hm
    have hk : keyOf m = none := by simp [keyOf, hm]
    have hcl : classified (ms1 ++ m :: ms2) = classified (ms1 ++ ms2) := by
      rw [show m :: ms2 = [m] ++ ms2 from rfl, classified_append, classified_append,
        classified_append, classified_cons_of_none [] hk]
      simp [classified_nil]
    unfold process_heatmap_data
    rw [hcl]

/-- Witness for C7 at concentration 17: the unmapped measurement
contributes to no group and no output cell. -/
theorem claim_C7_witness :
    dose_mapping 17 = none
    ∧ process_heatmap_data [exRep1, exUnmapped] = process_heatmap_data [exRep1] := by
  constructor
  · exact (claim_C7_unmapped_excluded 17 exUnmapped [] []).1
      (by norm_num) (by norm_num) (by norm_num)
  · exact (claim_C7_unmapped_excluded 17 exUnmapped [exRep1] []).2 rfl

/-! ## Lemmas on the aggregator -/

/-- The responses of a group are exactly the `netgr_obs` values of the
measurements carrying that full group key, in input order. -/
theorem groupResponses_classified (ms : List Measurement) (k : GroupKey) :
    groupResponsesR (classified ms) k
      = ((ms.filter fun m => get_canonical_amino_acids.contains m.alt_aa
            && decide (keyOf m = some k)).map Measurement.netgr_obs) := by
  induction ms with
  | nil => rfl
  | cons m t ih =>
    by_cases hc : m.alt_aa ∈ get_canonical_amino_acids
    · rcases hk : keyOf m with _ | k0
      · rw [classified_cons_of_none t hk]
        simp [List.filter_cons, hk, hc, ih]
      · rw [classified_cons_of_some t hc hk]
        by_cases hkk : k0 = k
        · subst hkk
          simp [groupResponsesR, List.filterMap_cons, List.filter_cons, hk, hc] at ih ⊢
          exact ih
        · simp [groupResponsesR, List.filterMap_cons, List.filter_cons, hk, hc, hkk] at ih ⊢
          exact ih
    · rw [classified_cons_of_not t hc]
      simp [List.filter_cons, hc, ih]

/-- C2, counterexample to the claim as stated: the aggregator's key also
contains the `species` column.  Two measurements that agree on gene, drug,
position, reference and alternate amino acid and dose level but sit in
different `species` rows form two groups of count 1 each (and the matrix
cell reports count 1), not one group of count 2. -/
theorem claim_C2_cex :
    exSpecA.gene = exSpecB.gene ∧ exSpecA.drug = exSpecB.drug
    ∧ exSpecA.protein_start = exSpecB.protein_start
    ∧ exSpecA.ref_aa = exSpecB.ref_aa ∧ exSpecA.alt_aa = exSpecB.alt_aa
    ∧ exSpecA.conc = exSpecB.conc
    ∧ (groupedKeysR (classified [exSpecA, exSpecB])).length = 2
    ∧ okCountAt (process_heatmap_data [exSpecA, exSpecB]) "315" "I" "low" = some 1 :=
  ⟨rfl, rfl, rfl, rfl, rfl, rfl, rfl, rfl⟩

/-- C2, amended (the group key additionally contains the `species` column):
per group, `count` is the number of measurements carrying the group's full
key, `mean` is the arithmetic mean of their responses and `std` is the
ddof-1 sample standard deviation, defined only for `count ≥ 2`; and the
spec's T315I scenario comes out with mean −0.03,
std = √0.0002 ≈ 0.0141, count 2, the other dose levels staying null with
count 0. -/
theorem claim_C2_aggregate_stats :
    (∀ (ms : List Measurement) (k : GroupKey),
      aggCount (classified ms) k
          = (ms.filter fun m => get_canonical_amino_acids.contains m.alt_aa
              && decide (keyOf m = some k)).length
      ∧ aggMean (classified ms) k
          = listMean ((ms.filter fun m => get_canonical_amino_acids.contains m.alt_aa
              && decide (keyOf m = some k)).map Measurement.netgr_obs)
      ∧ aggStdSq (classified ms) k
          = pandasStdSq ((ms.filter fun m => get_canonical_amino_acids.contains m.alt_aa
              && decide (keyOf m = some k)).map Measurement.netgr_obs))
    ∧ okValueAt (process_heatmap_data [exRep1, exRep2]) "315" "I" "low"
        = some (some (-3/100))
    ∧ okStdSqAt (process_heatmap_data [exRep1, exRep2]) "315" "I" "low"
        = some (some (1/5000))
    ∧ (0.0141 : ℝ) < Real.sqrt ((1/5000 : ℚ) : ℝ)
    ∧ Real.sqrt ((1/5000 : ℚ) : ℝ) < (0.0142 : ℝ)
    ∧ okCountAt (process_heatmap_data [exRep1, exRep2]) "315" "I" "low" = some 2
    ∧ okDoseAt (process_heatmap_data [exRep1, exRep2]) "315" "I" "medium"
        = some nullDoseCell
    ∧ okDoseAt (process_heatmap_data [exRep1, exRep2]) "315" "I" "high"
        = some nullDoseCell := by
  refine ⟨fun ms k => ⟨?_, ?_, ?_⟩, ?_, ?_, ?_, ?_, rfl, rfl, rfl⟩
  · rw [aggCount, groupResponses_classified, List.length_map]
  · rw [aggMean, groupResponses_classified]
  · rw [aggStdSq, groupResponses_classified]
  · have h : okValueAt (process_heatmap_data [exRep1, exRep2]) "315" "I" "low"
        = some (some (listMean [-1/50, -1/25])) := rfl
    rw [h]
    norm_num [listMean]
  · have h : okStdSqAt (process_heatmap_data [exRep1, exRep2]) "315" "I" "low"
        = some (some (std_value_sq [-1/50, -1/25])) := rfl
    rw [h]
    norm_num [std_value_sq, pandasStdSq, sampleVar, listMean]
  · rw [Real.lt_sqrt (by norm_num)]
    norm_num
  · rw [Real.sqrt_lt' (by norm_num)]
    norm_num

/-! ## Lemmas on permutation invariance -/

theorem classified_perm {ms ms' : List Measurement} (h : ms.Perm ms') :
    (classified ms).Perm (classified ms') :=
  (h.filter _).filterMap _

theorem groupResponses_perm {rows rows' : List (GroupKey × ℚ)}
    (h : rows.Perm rows') (k : GroupKey) :
    (groupResponsesR rows k).Perm (groupResponsesR rows' k) :=
  h.filterMap _

theorem listMean_perm {xs ys : List ℚ} (h : xs.Perm ys) :
    listMean xs = listMean ys := by
  rw [listMean, listMean, h.sum_eq, h.length_eq]

theorem sampleVar_perm {xs ys : List ℚ} (h : xs.Perm ys) :
    sampleVar xs = sampleVar ys := by
  rw [sampleVar, sampleVar, listMean_perm h, h.length_eq,
    (h.map fun x => (x - listMean ys) ^ 2).sum_eq]

theorem pandasStdSq_perm {xs ys : List ℚ} (h : xs.Perm ys) :
    pandasStdSq xs = pandasStdSq ys := by
  rw [pandasStdSq, pandasStdSq, h.length_eq, sampleVar_perm h]

theorem mem_groupedKeysR (rows : List (GroupKey × ℚ)) (k : GroupKey) :
    k ∈ groupedKeysR rows ↔ k ∈ rows.map Prod.fst := by
  rw [groupedKeysR, (List.perm_insertionSort _ _).mem_iff, List.mem_dedup]

/-- C8: rerunning the aggregator on any permutation of the measurement
rows yields the same group keys with identical mean, (squared) std and
count per group. -/
theorem claim_C8_perm_invariant (ms ms' : List Measurement) (k : GroupKey)
    (h : ms.Perm ms') :
    (k ∈ groupedKeysR (classified ms) ↔ k ∈ groupedKeysR (classified ms'))
    ∧ aggMean (classified ms) k = aggMean (classified ms') k
    ∧ aggStdSq (classified ms) k = aggStdSq (classified ms') k
    ∧ aggCount (classified ms) k = aggCount (classified ms') k := by
  have hrows := classified_perm h
  have hresp := groupResponses_perm hrows k
  refine ⟨?_, listMean_perm hresp, pandasStdSq_perm hresp, hresp.length_eq⟩
  rw [mem_groupedKeysR, mem_groupedKeysR, (hrows.map Prod.fst).mem_iff]

/-! ## Lemmas on the dict model -/

theorem dictGet_insert_self {V : Type} (d : List (String × V)) (k : String) (v : V) :
    dictGet (dictInsert d k v) k = some v := by
  induction d with
  | nil => simp [dictInsert, dictGet]
  | cons p rest ih =>
    rcases p with ⟨k1, v1⟩
    by_cases h : k1 = k
    · simp [dictInsert, dictGet, h]
    · simp [dictInsert, dictGet, h, ih]

theorem dictGet_insert_ne {V : Type} (d : List (String × V)) {k k' : String}
    (v : V) (h : k' ≠ k) :
    dictGet (dictInsert d k v) k' = dictGet d k' := by
  have h2 : ¬ k = k' := fun hh => h hh.symm
  induction d with
  | nil => simp [dictInsert, dictGet, h2]
  | cons p rest ih =>
    rcases p with ⟨k1, v1⟩
    by_cases h1 : k1 = k
    · subst h1
      simp [dictInsert, dictGet, h2]
    · simp [dictInsert, dictGet, h1, ih]

theorem dictKeys_insert {V : Type} (d : List (String × V)) (k : String) (v : V) :
    dictKeys (dictInsert d k v)
      = if k ∈ dictKeys d then dictKeys d else dictKeys d ++ [k] := by
  induction d with
  | nil => simp [dictInsert, dictKeys]
  | cons p rest ih =>
    rcases p with ⟨k1, v1⟩
    by_cases h : k1 = k
    · subst h
      simp [dictInsert, dictKeys]
    · have h' : ¬ k = k1 := fun hh => h hh.symm
      by_cases hm : k ∈ dictKeys rest
      · simp only [if_pos hm] at ih
        simp [dictInsert, dictKeys, h, h', hm] at ih ⊢
        have hmem : k ∈ k1 :: List.map Prod.fst rest :=
          List.mem_cons_of_mem _ hm
        simp [ih, hmem]
      · simp only [if_neg hm] at ih
        simp [dictInsert, dictKeys, h, h', hm] at ih ⊢
        have hmem : k ∉ k1 :: List.map Prod.fst rest := by
          intro hcon
          rcases List.mem_cons.mp hcon with hh | hh
          · exact h' hh
          · exact hm hh
        simp [ih, hmem]

theorem mem_dictKeys_insert {V : Type} (d : List (String × V)) (k a : String) (v : V) :
    a ∈ dictKeys (dictInsert d k v) ↔ a ∈ dictKeys d ∨ a = k := by
  rw [dictKeys_insert]
  by_cases hm : k ∈ dictKeys d
  · simp only [if_pos hm]
    constructor
    · exact fun h => Or.inl h
    · rintro (h | rfl)
      · exact h
      · exact hm
  · simp [if_neg hm]

theorem nodup_dictKeys_insert {V : Type} (d : List (String × V)) (k : String) (v : V)
    (h : (dictKeys d).Nodup) : (dictKeys (dictInsert d k v)).Nodup := by
  rw [dictKeys_insert]
  by_cases hm : k ∈ dictKeys d
  · simpa [if_pos hm]
  · simp [if_neg hm, List.nodup_append, h, hm]

theorem isSome_dictGet_iff {V : Type} (d : List (String × V)) (k : String) :
    (dictGet d k).isSome ↔ k ∈ dictKeys d := by
  induction d with
  | nil => simp [dictGet, dictKeys]
  | cons p rest ih =>
    rcases p with ⟨k1, v1⟩
    by_cases h : k1 = k
    · subst h
      simp [dictGet, dictKeys]
    · have h' : ¬ k = k1 := fun hh => h hh.symm
      simp only [dictGet, if_neg h, dictKeys, List.map_cons, List.mem_cons]
      rw [show List.map Prod.fst rest = dictKeys rest from rfl, ← ih]
      simp [h']

/-- Witness for C8: the two scenario replicates in both input orders. -/
theorem claim_C8_witness :
    (exKey ∈ groupedKeysR (classified [exRep1, exRep2])
      ↔ exKey ∈ groupedKeysR (classified [exRep2, exRep1]))
    ∧ aggMean (classified [exRep1, exRep2]) exKey
        = aggMean (classified [exRep2, exRep1]) exKey
    ∧ aggStdSq (classified [exRep1, exRep2]) exKey
        = aggStdSq (classified [exRep2, exRep1]) exKey
    ∧ aggCount (classified [exRep1, exRep2]) exKey
        = aggCount (classified [exRep2, exRep1]) exKey :=
  claim_C8_perm_invariant [exRep1, exRep2] [exRep2, exRep1] exKey
    (List.Perm.swap exRep2 exRep1 [])

/-! ## Step equations and structural invariants of the matrix builder -/

theorem pivotStepR_eq (rows : List (GroupKey × ℚ)) (mat : Matrix) (k : GroupKey) :
    pivotStepR rows mat k
      = dictInsert mat (toString k.protein_start)
          (dictInsert (pivotInnerOld mat k) k.alt_aa (pivotCell rows mat k)) := rfl

theorem fillStepR_eq (mat : Matrix) (p : ℤ) :
    fillStepR mat p
      = dictInsert mat (toString p) (fillInner ((dictGet mat (toString p)).getD [])) := rfl

theorem dictGet_insert_cases {V : Type} (d : List (String × V)) (k : String)
    (v : V) (aa : String) (c : V) (h : dictGet (dictInsert d k v) aa = some c) :
    (aa = k ∧ c = v) ∨ dictGet d aa = some c := by
  by_cases hk : aa = k
  · subst hk
    rw [dictGet_insert_self] at h
    exact Or.inl ⟨rfl, (Option.some.injEq _ _).mp h.symm⟩
  · rw [dictGet_insert_ne _ _ hk] at h
    exact Or.inr h

theorem CellsOK_mono {Ψ1 Ψ2 : AACell → Prop} (h : ∀ c, Ψ1 c → Ψ2 c)
    {mat : Matrix} (H : CellsOK Ψ1 mat) : CellsOK Ψ2 mat :=
  fun P inner aa c h1 h2 => h _ (H P inner aa c h1 h2)

theorem goodDose_null : GoodDose nullDoseCell := Or.inl rfl

theorem goodDose_of (xs : List ℚ) (h : xs ≠ []) : GoodDose (doseCellOf xs) :=
  Or.inr ⟨xs, h, rfl⟩

theorem setDose_good {c : AACell} {dc : DoseCell} (d : String)
    (h1 : GoodDose c.low) (h2 : GoodDose c.medium) (h3 : GoodDose c.high)
    (hdc : GoodDose dc) :
    GoodDose (setDose c d dc).low ∧ GoodDose (setDose c d dc).medium
      ∧ GoodDose (setDose c d dc).high := by
  unfold setDose
  split_ifs <;> exact ⟨by assumption, by assumption, by assumption⟩

theorem refCoerce_ne_empty (s : String) : refCoerce s ≠ "" := by
  unfold refCoerce
  split_ifs with h
  · intro hc
    exact absurd hc (by decide)
  · exact h

theorem groupResponses_ne_nil_of_mem (rows : List (GroupKey × ℚ)) (k : GroupKey)
    (h : k ∈ groupedKeysR rows) : groupResponsesR rows k ≠ [] := by
  rcases List.mem_map.mp ((mem_groupedKeysR rows k).mp h) with ⟨r, hr, hrk⟩
  apply List.ne_nil_of_mem (a := r.2)
  rw [groupResponsesR]
  exact List.mem_filterMap.mpr ⟨r, hr, by simp [hrk]⟩

/-- Cells written by the pivot loop satisfy the invariant and carry a
non-`None` reference amino acid. -/
theorem pivot_cells_inv (rows : List (GroupKey × ℚ)) (ks : List GroupKey)
    (hks : ∀ k ∈ ks, k ∈ groupedKeysR rows) (mat : Matrix)
    (hmat : CellsOK (fun c => CellW rows c ∧ c.ref_aa ≠ none) mat) :
    CellsOK (fun c => CellW rows c ∧ c.ref_aa ≠ none)
      (ks.foldl (pivotStepR rows) mat) := by
  induction ks generalizing mat with
  | nil => exact hmat
  | cons k ks ih =>
    refine ih (fun k' hk' => hks k' (List.mem_cons_of_mem _ hk')) _ ?_
    intro P inner aa c hP hc
    rw [pivotStepR_eq] at hP
    by_cases hPk : P = toString k.protein_start
    · subst hPk
      rw [dictGet_insert_self] at hP
      have hinner : inner = dictInsert (pivotInnerOld mat k) k.alt_aa (pivotCell rows mat k) :=
        ((Option.some.injEq _ _).mp hP).symm
      subst hinner
      rcases dictGet_insert_cases _ _ _ _ _ hc with ⟨rfl, rfl⟩ | hold
      · -- the freshly written pivot cell
        have hbase : GoodDose (pivotBase mat k).low ∧ GoodDose (pivotBase mat k).medium
            ∧ GoodDose (pivotBase mat k).high := by
          rcases hio : dictGet mat (toString k.protein_start) with _ | io
          · have hb : pivotBase mat k
                = { low := nullDoseCell, medium := nullDoseCell, high := nullDoseCell,
                    ref_aa := some k.ref_aa } := by
              simp [pivotBase, pivotInnerOld, hio, dictGet]
            rw [hb]
            exact ⟨goodDose_null, goodDose_null, goodDose_null⟩
          · rcases hbc : dictGet io k.alt_aa with _ | c0
            · have hb : pivotBase mat k
                  = { low := nullDoseCell, medium := nullDoseCell, high := nullDoseCell,
                      ref_aa := some k.ref_aa } := by
                simp [pivotBase, pivotInnerOld, hio, hbc]
              rw [hb]
              exact ⟨goodDose_null, goodDose_null, goodDose_null⟩
            · have hb : pivotBase mat k = c0 := by
                simp [pivotBase, pivotInnerOld, hio, hbc]
              rw [hb]
              have hc0 := hmat _ _ _ _ hio hbc
              exact ⟨hc0.1.1, hc0.1.2.1, hc0.1.2.2.1⟩
        have hk1 : k ∈ groupedKeysR rows := hks k (List.mem_cons_self _ _)
        have hne : groupResponsesR rows k ≠ [] := groupResponses_ne_nil_of_mem rows k hk1
        have hset := setDose_good k.dose_level hbase.1 hbase.2.1 hbase.2.2
          (goodDose_of _ hne)
        refine ⟨⟨hset.1, hset.2.1, hset.2.2, Or.inr ⟨k, hk1, rfl⟩⟩, by simp [pivotCell]⟩
      · -- an older cell of the same position
        rcases hio : dictGet mat (toString k.protein_start) with _ | io
        · rw [pivotInnerOld, hio] at hold
          simp [Option.getD, dictGet] at hold
        · rw [pivotInnerOld, hio] at hold
          exact hmat _ _ _ _ hio hold
    · rw [dictGet_insert_ne _ _ hPk] at hP
      exact hmat P inner aa c hP hc

theorem nullAACell_cellW (rows : List (GroupKey × ℚ)) : CellW rows nullAACell :=
  ⟨goodDose_null, goodDose_null, goodDose_null, Or.inl rfl⟩

/-- Cells of an ensure-fold over any key list. -/
theorem ensure_fold_cells (Ψ : AACell → Prop) (l : List String)
    (inner : List (String × AACell))
    (hin : ∀ aa c, dictGet inner aa = some c → Ψ c) (hnull : Ψ nullAACell) :
    ∀ aa c,
      dictGet (l.foldl
        (fun d a => if (dictGet d a).isSome then d else dictInsert d a nullAACell) inner) aa
        = some c → Ψ c := by
  induction l generalizing inner with
  | nil => exact hin
  | cons x l ih =>
    intro aa c h
    refine ih _ ?_ aa c h
    intro aa' c' h'
    change dictGet (if (dictGet inner x).isSome then inner
      else dictInsert inner x nullAACell) aa' = some c' at h'
    by_cases hx : (dictGet inner x).isSome
    · rw [if_pos hx] at h'
      exact hin aa' c' h'
    · rw [if_neg hx] at h'
      rcases dictGet_insert_cases _ _ _ _ _ h' with ⟨rfl, rfl⟩ | hold
      · exact hnull
      · exact hin aa' c' hold

/-- Cells after the fill loop still satisfy the invariant. -/
theorem fill_cells_inv (rows : List (GroupKey × ℚ)) (ps : List ℤ) (mat : Matrix)
    (hmat : CellsOK (CellW rows) mat) :
    CellsOK (CellW rows) (ps.foldl fillStepR mat) := by
  induction ps generalizing mat with
  | nil => exact hmat
  | cons p ps ih =>
    refine ih _ ?_
    intro P inner aa c hP hc
    rw [fillStepR_eq] at hP
    by_cases hPp : P = toString p
    · subst hPp
      rw [dictGet_insert_self] at hP
      injection hP with hinner
      subst hinner
      unfold fillInner at hc
      refine ensure_fold_cells (CellW rows) _ _ ?_ (nullAACell_cellW rows) aa c hc
      intro aa' c' h'
      rcases hio : dictGet mat (toString p) with _ | io
      · rw [hio] at h'
        simp [Option.getD, dictGet] at h'
      · rw [hio] at h'
        exact hmat _ _ _ _ hio h'
    · rw [dictGet_insert_ne _ _ hPp] at hP
      exact hmat P inner aa c hP hc

/-- All cells of the final matrix satisfy the cell invariant. -/
theorem final_cells (ms : List Measurement) :
    CellsOK (CellW (classified ms)) (finalMatrixR (classified ms)) := by
  unfold finalMatrixR pivotMatrixR
  apply fill_cells_inv
  apply CellsOK_mono (fun c (h : CellW (classified ms) c ∧ c.ref_aa ≠ none) => h.1)
  apply pivot_cells_inv _ _ (fun k hk => hk)
  intro P inner aa c hP hc
  simp [dictGet] at hP

/-! ## Claim C1: per-cell count/value/std invariants -/

theorem sampleVar_nonneg (xs : List ℚ) (h : 2 ≤ xs.length) : 0 ≤ sampleVar xs := by
  apply div_nonneg
  · apply List.sum_nonneg
    intro x hx
    rcases List.mem_map.mp hx with ⟨y, hy, rfl⟩
    exact sq_nonneg _
  · have h2 : (2 : ℚ) ≤ (xs.length : ℚ) := by exact_mod_cast h
    linarith

theorem getDose_cases (cell : AACell) (d : String) :
    getDose cell d = cell.low ∨ getDose cell d = cell.medium
      ∨ getDose cell d = cell.high ∨ getDose cell d = nullDoseCell := by
  unfold getDose
  split_ifs <;> simp

theorem goodDose_props (c : DoseCell) (h : GoodDose c) :
    (c.count = 0 → c.value = none ∧ c.stdSq = none)
    ∧ (c.count = 1 → c.stdSq = some 0)
    ∧ (2 ≤ c.count → ∃ v, c.stdSq = some v ∧ 0 ≤ v ∧ 0 ≤ Real.sqrt (v : ℝ)) := by
  rcases h with rfl | ⟨xs, hne, rfl⟩
  · refine ⟨fun _ => ⟨rfl, rfl⟩, fun h1 => ?_, fun h2 => ?_⟩
    · simp [nullDoseCell] at h1
    · simp [nullDoseCell] at h2
  · refine ⟨fun h0 => ?_, fun h1 => ?_, fun h2 => ?_⟩
    · exact absurd (List.length_eq_zero.mp h0) hne
    · have h1' : xs.length = 1 := h1
      simp [doseCellOf, std_value_sq, pandasStdSq, h1']
    · have h2' : 2 ≤ xs.length := h2
      refine ⟨sampleVar xs, ?_, sampleVar_nonneg xs h2', Real.sqrt_nonneg _⟩
      simp [doseCellOf, std_value_sq, pandasStdSq, h2']

theorem okDoseAt_cases (ms : List Measurement) (P aa d : String) (c : DoseCell)
    (h : okDoseAt (process_heatmap_data ms) P aa d = some c) :
    ∃ inner cell, dictGet (finalMatrixR (classified ms)) P = some inner
      ∧ dictGet inner aa = some cell ∧ c = getDose cell d := by
  unfold okDoseAt process_heatmap_data processRows at h
  rcases hap : allPositionsR (classified ms) with _ | ⟨p, ps⟩ <;> rw [hap] at h
  · simp [Except.toOption] at h
  · simp only [Except.toOption, Option.some_bind] at h
    rcases hinner : dictGet (finalMatrixR (classified ms)) P with _ | inner <;>
      rw [hinner] at h
    · simp at h
    · simp only [Option.some_bind] at h
      rcases hcell : dictGet inner aa with _ | cell <;> rw [hcell] at h
      · simp at h
      · simp only [Option.map_some'] at h
        exact ⟨inner, cell, rfl, hcell, ((Option.some.injEq _ _).mp h).symm⟩

/-- C1, amended: in every cell of the built matrix, `count == 0` entries
are fully null; a `count == 1` entry stores `std = 0` (the source coerces
the NaN sample deviation to `0`, not to null); and a `count ≥ 2` entry
stores a defined, non-negative standard deviation (a non-negative squared
value, whose square root is the non-negative std). -/
theorem claim_C1_cell_invariants (ms : List Measurement) (P aa d : String)
    (c : DoseCell) (h : okDoseAt (process_heatmap_data ms) P aa d = some c) :
    (c.count = 0 → c.value = none ∧ c.stdSq = none)
    ∧ (c.count = 1 → c.stdSq = some 0)
    ∧ (2 ≤ c.count → ∃ v, c.stdSq = some v ∧ 0 ≤ v ∧ 0 ≤ Real.sqrt (v : ℝ)) := by
  obtain ⟨inner, cell, hinner, hcell, rfl⟩ := okDoseAt_cases ms P aa d c h
  have hW := final_cells ms P inner aa cell hinner hcell
  rcases getDose_cases cell d with hd | hd | hd | hd <;> rw [hd]
  · exact goodDose_props _ hW.1
  · exact goodDose_props _ hW.2.1
  · exact goodDose_props _ hW.2.2.1
  · exact goodDose_props _ goodDose_null

/-- Witness for C1 at a single-replicate cell: its `count` is 1 and its
stored std is 0. -/
theorem claim_C1_witness : (doseCellOf [(-1 : ℚ)/50]).stdSq = some 0 :=
  (claim_C1_cell_invariants [exRep1] "315" "I" "low" (doseCellOf [(-1 : ℚ)/50])
    rfl).2.1 rfl

/-- C1, counterexample to the claim as stated: a group with a single
replicate yields a cell with `count = 1` whose std is `0`, not null. -/
theorem claim_C1_cex :
    okCountAt (process_heatmap_data [exRep1]) "315" "I" "low" = some 1
    ∧ okStdSqAt (process_heatmap_data [exRep1]) "315" "I" "low" = some (some 0)
    ∧ (some (some (0 : ℚ)) : Option (Option ℚ)) ≠ some none := by
  refine ⟨rfl, ?_, by simp⟩
  have h : okStdSqAt (process_heatmap_data [exRep1]) "315" "I" "low"
      = some (some (std_value_sq [(-1 : ℚ)/50])) := rfl
  rw [h]
  simp [std_value_sq, pandasStdSq]

/-! ## Claim C6: every present position carries exactly the 20 canonical
amino-acid keys -/

theorem mem_keys_ensure (l : List String) (inner : List (String × AACell)) (a : String) :
    a ∈ dictKeys (l.foldl
      (fun d aa => if (dictGet d aa).isSome then d else dictInsert d aa nullAACell) inner)
    ↔ a ∈ dictKeys inner ∨ a ∈ l := by
  induction l generalizing inner with
  | nil => simp
  | cons x l ih =>
    rw [List.foldl_cons]
    by_cases hx : (dictGet inner x).isSome
    · rw [if_pos hx, ih]
      have hxm : x ∈ dictKeys inner := (isSome_dictGet_iff _ _).mp hx
      simp only [List.mem_cons]
      constructor
      · rintro (h1 | h1)
        · exact Or.inl h1
        · exact Or.inr (Or.inr h1)
      · rintro (h1 | rfl | h1)
        · exact Or.inl h1
        · exact Or.inl hxm
        · exact Or.inr h1
    · rw [if_neg hx, ih, mem_dictKeys_insert]
      simp only [List.mem_cons]
      tauto

theorem nodup_keys_ensure (l : List String) (inner : List (String × AACell))
    (h : (dictKeys inner).Nodup) :
    (dictKeys (l.foldl
      (fun d aa => if (dictGet d aa).isSome then d else dictInsert d aa nullAACell)
      inner)).Nodup := by
  induction l generalizing inner with
  | nil => exact h
  | cons x l ih =>
    rw [List.foldl_cons]
    by_cases hx : (dictGet inner x).isSome
    · rw [if_pos hx]
      exact ih _ h
    · rw [if_neg hx]
      exact ih _ (nodup_dictKeys_insert _ _ _ h)

theorem fillInner_done (inner : List (String × AACell)) : FillDone (fillInner inner) := by
  intro aa ha
  unfold fillInner
  rw [mem_keys_ensure]
  exact Or.inr ha

theorem alt_mem_canonical_of_mem_grouped (ms : List Measurement) (k : GroupKey)
    (h : k ∈ groupedKeysR (classified ms)) :
    k.alt_aa ∈ get_canonical_amino_acids := by
  rcases List.mem_map.mp ((mem_groupedKeysR _ _).mp h) with ⟨⟨k', v⟩, hmem, hk⟩
  rcases List.mem_filterMap.mp hmem with ⟨m, hm, hf⟩
  rcases hd : dose_mapping m.conc with _ | d
  · rw [keyOf, hd] at hf
    simp at hf
  · rw [keyOf, hd] at hf
    simp only [Option.map_some'] at hf
    have hk0 : k'.alt_aa = m.alt_aa := by
      have := ((Prod.mk.injEq _ _ _ _).mp ((Option.some.injEq _ _).mp hf)).1
      rw [← this]
    have hmc : m.alt_aa ∈ get_canonical_amino_acids := by
      have hfil := (List.mem_filter.mp hm).2
      simpa using hfil
    have hkk : k' = k := hk
    rw [← hkk, hk0]
    exact hmc

theorem pivot_keys_inv (rows : List (GroupKey × ℚ)) (ks : List GroupKey)
    (hks : ∀ k ∈ ks, k.alt_aa ∈ get_canonical_amino_acids) (mat : Matrix)
    (hmat : KeysOK mat) : KeysOK (ks.foldl (pivotStepR rows) mat) := by
  induction ks generalizing mat with
  | nil => exact hmat
  | cons k ks ih =>
    refine ih (fun k' h' => hks k' (List.mem_cons_of_mem _ h')) _ ?_
    intro P inner hP
    rw [pivotStepR_eq] at hP
    by_cases hPk : P = toString k.protein_start
    · subst hPk
      rw [dictGet_insert_self] at hP
      injection hP with hinner
      subst hinner
      have hold : (∀ a ∈ dictKeys (pivotInnerOld mat k), a ∈ get_canonical_amino_acids)
          ∧ (dictKeys (pivotInnerOld mat k)).Nodup := by
        unfold pivotInnerOld
        rcases hio : dictGet mat (toString k.protein_start) with _ | io
        · exact ⟨by simp [dictKeys], by simp [dictKeys]⟩
        · simpa using hmat _ _ hio
      constructor
      · intro a ha
        rcases (mem_dictKeys_insert _ _ _ _).mp ha with h1 | rfl
        · exact hold.1 a h1
        · exact hks k (List.mem_cons_self _ _)
      · exact nodup_dictKeys_insert _ _ _ hold.2
    · rw [dictGet_insert_ne _ _ hPk] at hP
      exact hmat _ _ hP

theorem fill_keys_inv (ps : List ℤ) (mat : Matrix) (hmat : KeysOK mat) :
    KeysOK (ps.foldl fillStepR mat) := by
  induction ps generalizing mat with
  | nil => exact hmat
  | cons p ps ih =>
    refine ih _ ?_
    intro P inner hP
    rw [fillStepR_eq] at hP
    by_cases hPp : P = toString p
    · subst hPp
      rw [dictGet_insert_self] at hP
      injection hP with hinner
      subst hinner
      have hold : (∀ a ∈ dictKeys ((dictGet mat (toString p)).getD []),
            a ∈ get_canonical_amino_acids)
          ∧ (dictKeys ((dictGet mat (toString p)).getD [])).Nodup := by
        rcases hio : dictGet mat (toString p) with _ | io
        · exact ⟨by simp [dictKeys], by simp [dictKeys]⟩
        · simpa using hmat _ _ hio
      constructor
      · intro a ha
        unfold fillInner at ha
        rcases (mem_keys_ensure _ _ _).mp ha with h1 | h1
        · exact hold.1 a h1
        · exact h1
      · unfold fillInner
        exact nodup_keys_ensure _ _ hold.2
    · rw [dictGet_insert_ne _ _ hPp] at hP
      exact hmat _ _ hP

theorem fill_covers (ps : List ℤ) (mat : Matrix) (P : String)
    (inner : List (String × AACell))
    (h : dictGet (ps.foldl fillStepR mat) P = some inner) :
    FillDone inner ∨ (dictGet mat P = some inner ∧ ∀ p ∈ ps, P ≠ toString p) := by
  induction ps generalizing mat with
  | nil => exact Or.inr ⟨h, by simp⟩
  | cons p ps ih =>
    rw [List.foldl_cons] at h
    rcases ih (fillStepR mat p) h with hF | ⟨hget, hnot⟩
    · exact Or.inl hF
    · rw [fillStepR_eq] at hget
      by_cases hP : P = toString p
      · subst hP
        rw [dictGet_insert_self] at hget
        injection hget with hig
        subst hig
        exact Or.inl (fillInner_done _)
      · rw [dictGet_insert_ne _ _ hP] at hget
        refine Or.inr ⟨hget, ?_⟩
        intro q hq
        rcases List.mem_cons.mp hq with rfl | hq'
        · exact hP
        · exact hnot q hq'

theorem pivot_pos_keys (rows : List (GroupKey × ℚ)) (ks : List GroupKey)
    (mat : Matrix) (P : String)
    (h : (dictGet (ks.foldl (pivotStepR rows) mat) P).isSome) :
    (dictGet mat P).isSome ∨ ∃ k, k ∈ ks ∧ P = toString k.protein_start := by
  induction ks generalizing mat with
  | nil => exact Or.inl h
  | cons k ks ih =>
    rw [List.foldl_cons] at h
    rcases ih (pivotStepR rows mat k) h with h1 | ⟨k', hk', hP⟩
    · rw [pivotStepR_eq] at h1
      by_cases hPk : P = toString k.protein_start
      · exact Or.inr ⟨k, List.mem_cons_self _ _, hPk⟩
      · rw [dictGet_insert_ne _ _ hPk] at h1
        exact Or.inl h1
    · exact Or.inr ⟨k', List.mem_cons_of_mem _ hk', hP⟩

theorem pos_mem_allPositionsR (rows : List (GroupKey × ℚ)) (k : GroupKey)
    (h : k ∈ groupedKeysR rows) : k.protein_start ∈ allPositionsR rows := by
  rw [allPositionsR, (List.perm_insertionSort _ _).mem_iff, List.mem_dedup]
  rcases List.mem_map.mp ((mem_groupedKeysR rows k).mp h) with ⟨r, hr, hrk⟩
  exact List.mem_map.mpr ⟨r, hr, by rw [hrk]⟩

theorem final_fillDone (rows : List (GroupKey × ℚ)) (P : String)
    (inner : List (String × AACell))
    (h : dictGet (finalMatrixR rows) P = some inner) : FillDone inner := by
  unfold finalMatrixR at h
  rcases fill_covers _ _ _ _ h with hF | ⟨hget, hnot⟩
  · exact hF
  · exfalso
    have hs : (dictGet (pivotMatrixR rows) P).isSome := by rw [hget]; rfl
    unfold pivotMatrixR at hs
    rcases pivot_pos_keys rows _ _ _ hs with h1 | ⟨k, hk, hP⟩
    · simp [dictGet] at h1
    · exact hnot k.protein_start (pos_mem_allPositionsR rows k hk) hP

theorem final_keysOK (ms : List Measurement) :
    KeysOK (finalMatrixR (classified ms)) := by
  unfold finalMatrixR pivotMatrixR
  apply fill_keys_inv
  apply pivot_keys_inv _ _ (alt_mem_canonical_of_mem_grouped ms)
  intro P inner hP
  simp [dictGet] at hP

theorem okAAKeys_cases (ms : List Measurement) (P : String) (keys : List String)
    (h : okAAKeys (process_heatmap_data ms) P = some keys) :
    ∃ inner, dictGet (finalMatrixR (classified ms)) P = some inner
      ∧ keys = dictKeys inner := by
  unfold okAAKeys process_heatmap_data processRows at h
  rcases hap : allPositionsR (classified ms) with _ | ⟨p, ps⟩ <;> rw [hap] at h
  · simp [Except.toOption] at h
  · simp only [Except.toOption, Option.some_bind] at h
    rcases hinner : dictGet (finalMatrixR (classified ms)) P with _ | inner <;>
      rw [hinner] at h
    · simp at h
    · simp only [Option.map_some'] at h
      exact ⟨inner, rfl, ((Option.some.injEq _ _).mp h).symm⟩

/-- C6: every position present in the built matrix carries exactly the 20
canonical amino-acid keys, no more, no fewer. -/
theorem claim_C6_dense_amino_acids (ms : List Measurement) (P : String)
    (keys : List String) (aa : String)
    (h : okAAKeys (process_heatmap_data ms) P = some keys) :
    (aa ∈ keys ↔ aa ∈ get_canonical_amino_acids) ∧ keys.Nodup ∧ keys.length = 20 := by
  obtain ⟨inner, hinner, rfl⟩ := okAAKeys_cases ms P keys h
  have hOK := final_keysOK ms P inner hinner
  have hFD := final_fillDone (classified ms) P inner hinner
  have hiff : ∀ a, a ∈ dictKeys inner ↔ a ∈ get_canonical_amino_acids :=
    fun a => ⟨fun ha => hOK.1 a ha, fun ha => hFD a ha⟩
  have hperm : (dictKeys inner).Perm get_canonical_amino_acids :=
    (List.perm_ext_iff_of_nodup hOK.2 (by decide)).mpr hiff
  exact ⟨hiff aa, hOK.2, by rw [hperm.length_eq]; rfl⟩

/-- Witness for C6 at the scenario matrix, position 315, amino acid W. -/
theorem claim_C6_witness :
    ("W" ∈ exKeys315 ↔ "W" ∈ get_canonical_amino_acids)
    ∧ exKeys315.Nodup ∧ exKeys315.length = 20 :=
  claim_C6_dense_amino_acids [exRep1, exRep2] "315" exKeys315 "W" rfl

/-! ## Claim C9: the reference-amino-acid field -/

theorem okRefAt_cases (ms : List Measurement) (P aa : String) (r : Option String)
    (h : okRefAt (process_heatmap_data ms) P aa = some r) :
    ∃ inner cell, dictGet (finalMatrixR (classified ms)) P = some inner
      ∧ dictGet inner aa = some cell ∧ r = cell.ref_aa := by
  unfold okRefAt process_heatmap_data processRows at h
  rcases hap : allPositionsR (classified ms) with _ | ⟨p, ps⟩ <;> rw [hap] at h
  · simp [Except.toOption] at h
  · simp only [Except.toOption, Option.some_bind] at h
    rcases hinner : dictGet (finalMatrixR (classified ms)) P with _ | inner <;>
      rw [hinner] at h
    · simp at h
    · simp only [Option.some_bind] at h
      rcases hcell : dictGet inner aa with _ | cell <;> rw [hcell] at h
      · simp at h
      · simp only [Option.map_some'] at h
        exact ⟨inner, cell, rfl, hcell, ((Option.some.injEq _ _).mp h).symm⟩

/-- C9, amended: the reference amino acid is stored per amino-acid cell,
not per position.  Whenever a cell carries one, it is non-empty (an empty
source reference is coerced to the sentinel `X`) and it originates from
one of the aggregated groups; gap-filled cells carry the null sentinel
instead, so the field need not be constant within a position. -/
theorem claim_C9_ref_aa (ms : List Measurement) (P aa : String) (r : String)
    (h : okRefAt (process_heatmap_data ms) P aa = some (some r)) :
    r ≠ "" ∧ RefFromGroups (classified ms) r := by
  obtain ⟨inner, cell, hinner, hcell, hr⟩ := okRefAt_cases ms P aa (some r) h
  have hW := final_cells ms P inner aa cell hinner hcell
  rcases hW.2.2.2 with hnone | ⟨k, hk, hco⟩
  · rw [hnone] at hr
    exact absurd hr (by simp)
  · rw [hco] at hr
    have hr' : r = refCoerce k.ref_aa := (Option.some.injEq _ _).mp hr
    exact ⟨hr' ▸ refCoerce_ne_empty _, ⟨k, hk, hr'⟩⟩

/-- Witness for C9 at the scenario cell (315, I): the stored reference T. -/
theorem claim_C9_witness :
    "T" ≠ "" ∧ RefFromGroups (classified [exRep1, exRep2]) "T" :=
  claim_C9_ref_aa [exRep1, exRep2] "315" "I" "T" rfl

/-- C9, counterexample to the claim as stated: at position 315 the
observed cell I stores reference T while the gap-filled cell A stores the
null sentinel, so the field is not constant across the 20 amino-acid
entries of the position. -/
theorem claim_C9_cex :
    okRefAt (process_heatmap_data [exRep1, exRep2]) "315" "I" = some (some "T")
    ∧ okRefAt (process_heatmap_data [exRep1, exRep2]) "315" "A" = some none
    ∧ (some (some "T") : Option (Option String)) ≠ some none :=
  ⟨rfl, rfl, by simp⟩

/-! ## Claim C5: the global range versus the per-dose ranges -/

theorem foldl_min_split (t : List ℚ) (y h : ℚ) :
    t.foldl min (min y h) = min y (t.foldl min h) := by
  induction t generalizing h with
  | nil => rfl
  | cons a t ih =>
    rw [List.foldl_cons, List.foldl_cons, min_assoc, ih]

theorem foldl_max_split (t : List ℚ) (y h : ℚ) :
    t.foldl max (max y h) = max y (t.foldl max h) := by
  induction t generalizing h with
  | nil => rfl
  | cons a t ih =>
    rw [List.foldl_cons, List.foldl_cons, max_assoc, ih]

theorem pyMinD_append (xs ys : List ℚ) (hx : xs ≠ []) (hy : ys ≠ [])
    (d1 d2 d3 : ℚ) :
    pyMinD (xs ++ ys) d1 = min (pyMinD xs d2) (pyMinD ys d3) := by
  rcases xs with _ | ⟨x, xs⟩
  · exact absurd rfl hx
  rcases ys with _ | ⟨y, ys⟩
  · exact absurd rfl hy
  simp only [pyMinD, List.cons_append]
  rw [List.foldl_append, List.foldl_cons]
  exact foldl_min_split ys (List.foldl min x xs) y

theorem pyMaxD_append (xs ys : List ℚ) (hx : xs ≠ []) (hy : ys ≠ [])
    (d1 d2 d3 : ℚ) :
    pyMaxD (xs ++ ys) d1 = max (pyMaxD xs d2) (pyMaxD ys d3) := by
  rcases xs with _ | ⟨x, xs⟩
  · exact absurd rfl hx
  rcases ys with _ | ⟨y, ys⟩
  · exact absurd rfl hy
  simp only [pyMaxD, List.cons_append]
  rw [List.foldl_append, List.foldl_cons]
  exact foldl_max_split ys (List.foldl max x xs) y

/-- C5, amended: the identity `global.min = min of the three dose minima`
(and its max counterpart) holds whenever every dose level has at least one
non-null value; when a dose level is empty its sentinel `(0, 1)` range
enters the min/max and the identity can fail. -/
theorem claim_C5_range (mat : Matrix)
    (h1 : doseValues mat (fun c => c.low) ≠ [])
    (h2 : doseValues mat (fun c => c.medium) ≠ [])
    (h3 : doseValues mat (fun c => c.high) ≠ []) :
    (valueRangeOf mat).gmin
      = min (min (valueRangeOf mat).low.rmin (valueRangeOf mat).medium.rmin)
          (valueRangeOf mat).high.rmin
    ∧ (valueRangeOf mat).gmax
      = max (max (valueRangeOf mat).low.rmax (valueRangeOf mat).medium.rmax)
          (valueRangeOf mat).high.rmax := by
  have hgmin : (valueRangeOf mat).gmin
      = pyMinD ((doseValues mat (fun c => c.low) ++ doseValues mat (fun c => c.medium))
          ++ doseValues mat (fun c => c.high)) 0 := rfl
  have hgmax : (valueRangeOf mat).gmax
      = pyMaxD ((doseValues mat (fun c => c.low) ++ doseValues mat (fun c => c.medium))
          ++ doseValues mat (fun c => c.high)) 1 := rfl
  have h12 : doseValues mat (fun c => c.low) ++ doseValues mat (fun c => c.medium) ≠ [] := by
    intro hc
    exact h1 (List.append_eq_nil.mp hc).1
  constructor
  · rw [hgmin, pyMinD_append _ _ h12 h3 0 0 0, pyMinD_append _ _ h1 h2 0 0 0]
    rfl
  · rw [hgmax, pyMaxD_append _ _ h12 h3 1 1 1, pyMaxD_append _ _ h1 h2 1 1 1]
    rfl

/-- Witness for C5 on a small matrix whose three dose lists are
non-empty. -/
theorem claim_C5_witness :
    (valueRangeOf exMatrix).gmin
      = min (min (valueRangeOf exMatrix).low.rmin (valueRangeOf exMatrix).medium.rmin)
          (valueRangeOf exMatrix).high.rmin
    ∧ (valueRangeOf exMatrix).gmax
      = max (max (valueRangeOf exMatrix).low.rmax (valueRangeOf exMatrix).medium.rmax)
          (valueRangeOf exMatrix).high.rmax :=
  claim_C5_range exMatrix
    (by rw [show doseValues exMatrix (fun c => c.low) = [2] from rfl]; simp)
    (by rw [show doseValues exMatrix (fun c => c.medium) = [3] from rfl]; simp)
    (by rw [show doseValues exMatrix (fun c => c.high) = [5] from rfl]; simp)

/-- C5, counterexample to the claim as stated: a matrix with one non-null
value, at the medium dose, has `global.min = 5` while the per-dose minima
contribute the empty-dose sentinel 0, so the claimed identity fails even
though a non-null value exists. -/
theorem claim_C5_cex :
    okValueAt (process_heatmap_data [exMed]) "1" "A" "medium"
      = some (some (listMean [5]))
    ∧ okValueRange (process_heatmap_data [exMed])
      = some { gmin := listMean [5], gmax := listMean [5],
               low := { rmin := 0, rmax := 1 },
               medium := { rmin := listMean [5], rmax := listMean [5] },
               high := { rmin := 0, rmax := 1 } }
    ∧ listMean [5] = 5
    ∧ min (min (0 : ℚ) 5) 0 = 0
    ∧ (5 : ℚ) ≠ 0 :=
  ⟨rfl, rfl, by norm_num [listMean], by norm_num, by norm_num⟩

/-! ## Decimal string keys: `str(position)` is injective and free of the
separator characters -/

theorem toDigitsCore_eq_natDigs (fuel n : ℕ) (ds : List Char) (h : n < fuel) :
    Nat.toDigitsCore 10 fuel n ds = natDigs n ++ ds := by
  induction fuel generalizing n ds with
  | zero => omega
  | succ fuel ih =>
    rw [natDigs]
    by_cases h10 : n < 10
    · have hdiv : n / 10 = 0 := Nat.div_eq_of_lt h10
      have hmod : n % 10 = n := Nat.mod_eq_of_lt h10
      simp [Nat.toDigitsCore, hdiv, hmod, h10]
    · have hdiv : n / 10 ≠ 0 := by omega
      have hlt : n / 10 < fuel := by
        have : n / 10 < n := Nat.div_lt_self (by omega) (by omega)
        omega
      simp only [Nat.toDigitsCore, hdiv, if_neg hdiv, if_neg h10, dif_neg h10]
      rw [ih _ _ hlt]
      simp

theorem natRepr_eq_natDigs (n : ℕ) : Nat.repr n = (natDigs n).asString := by
  rw [Nat.repr, Nat.toDigits, toDigitsCore_eq_natDigs (n + 1) n [] (Nat.lt_succ_self n)]
  simp

theorem digitChar_inj_lt : ∀ m < 10, ∀ n < 10,
    Nat.digitChar m = Nat.digitChar n → m = n := by decide

theorem digitChar_not_special : ∀ n < 10,
    Nat.digitChar n ≠ '-' ∧ Nat.digitChar n ≠ '_' := by decide

theorem natDigs_lt {n : ℕ} (h : n < 10) : natDigs n = [Nat.digitChar n] := by
  rw [natDigs, dif_pos h]

theorem natDigs_ge {n : ℕ} (h : ¬ n < 10) :
    natDigs n = natDigs (n / 10) ++ [Nat.digitChar (n % 10)] := by
  rw [natDigs, dif_neg h]

theorem natDigs_ne_nil (n : ℕ) : natDigs n ≠ [] := by
  rw [natDigs]
  split_ifs <;> simp

theorem natDigs_chars (n : ℕ) : ∀ c ∈ natDigs n, c ≠ '-' ∧ c ≠ '_' := by
  induction n using Nat.strong_induction_on with
  | _ n ih =>
    rw [natDigs]
    by_cases h10 : n < 10
    · rw [dif_pos h10]
      intro c hc
      rw [List.mem_singleton] at hc
      subst hc
      exact digitChar_not_special n h10
    · rw [dif_neg h10]
      intro c hc
      rcases List.mem_append.mp hc with hc | hc
      · exact ih (n / 10) (Nat.div_lt_self (by omega) (by omega)) c hc
      · rw [List.mem_singleton] at hc
        subst hc
        exact digitChar_not_special (n % 10) (Nat.mod_lt n (by omega))

theorem snoc_inj {l1 l2 : List Char} {a b : Char}
    (h : l1 ++ [a] = l2 ++ [b]) : l1 = l2 ∧ a = b := by
  have hr := congrArg List.reverse h
  simp only [List.reverse_append, List.reverse_singleton, List.singleton_append,
    List.cons.injEq] at hr
  exact ⟨List.reverse_injective hr.2, hr.1⟩

theorem natDigs_inj : ∀ m n : ℕ, natDigs m = natDigs n → m = n := by
  intro m
  induction m using Nat.strong_induction_on with
  | _ m ih =>
    intro n h
    by_cases hm : m < 10 <;> by_cases hn : n < 10
    · rw [natDigs_lt hm, natDigs_lt hn] at h
      simp only [List.cons.injEq, and_true] at h
      exact digitChar_inj_lt m hm n hn h
    · exfalso
      rw [natDigs_lt hm, natDigs_ge hn] at h
      have hlen := congrArg List.length h
      simp only [List.length_singleton, List.length_append] at hlen
      have h2 : 1 ≤ (natDigs (n / 10)).length :=
        List.length_pos.mpr (natDigs_ne_nil _)
      omega
    · exfalso
      rw [natDigs_ge hm, natDigs_lt hn] at h
      have hlen := congrArg List.length h
      simp only [List.length_singleton, List.length_append] at hlen
      have h2 : 1 ≤ (natDigs (m / 10)).length :=
        List.length_pos.mpr (natDigs_ne_nil _)
      omega
    · rw [natDigs_ge hm, natDigs_ge hn] at h
      obtain ⟨hds, hd⟩ := snoc_inj h
      have hdiv : m / 10 = n / 10 :=
        ih (m / 10) (Nat.div_lt_self (by omega) (by omega)) _ hds
      have hmod : m % 10 = n % 10 :=
        digitChar_inj_lt _ (Nat.mod_lt m (by omega)) _ (Nat.mod_lt n (by omega)) hd
      omega

theorem natRepr_inj {m n : ℕ} (h : Nat.repr m = Nat.repr n) : m = n := by
  rw [natRepr_eq_natDigs, natRepr_eq_natDigs] at h
  have hd : natDigs m = natDigs n := by
    have := congrArg String.data h
    simpa [List.asString] using this
  exact natDigs_inj m n hd

theorem natRepr_chars (n : ℕ) : ∀ c ∈ (Nat.repr n).data, c ≠ '-' ∧ c ≠ '_' := by
  rw [natRepr_eq_natDigs]
  intro c hc
  exact natDigs_chars n c (by simpa [List.asString] using hc)

theorem intToString_ofNat (m : ℕ) : toString (Int.ofNat m) = Nat.repr m := rfl

theorem intToString_negSucc (m : ℕ) :
    toString (Int.negSucc m) = "-" ++ Nat.repr (m + 1) := rfl

theorem int_toString_inj : Function.Injective (fun i : ℤ => toString i) := by
  intro a b h
  simp only at h
  cases a with
  | ofNat m =>
    cases b with
    | ofNat n =>
      rw [intToString_ofNat, intToString_ofNat] at h
      exact congrArg Int.ofNat (natRepr_inj h)
    | negSucc n =>
      exfalso
      rw [intToString_ofNat, intToString_negSucc] at h
      have hd := congrArg String.data h
      rw [String.data_append] at hd
      rcases hns : (Nat.repr m).data with _ | ⟨c, cs⟩
      · rw [natRepr_eq_natDigs] at hns
        exact natDigs_ne_nil m (by simpa [List.asString] using hns)
      · rw [hns] at hd
        have hc : c = '-' := by
          have : c :: cs = '-' :: (Nat.repr (n + 1)).data := by simpa using hd
          exact (List.cons.injEq _ _ _ _ ▸ this).1
        have := natRepr_chars m c (by rw [hns]; exact List.mem_cons_self _ _)
        exact this.1 hc
  | negSucc m =>
    cases b with
    | ofNat n =>
      exfalso
      rw [intToString_ofNat, intToString_negSucc] at h
      have hd := congrArg String.data h.symm
      rw [String.data_append] at hd
      rcases hns : (Nat.repr n).data with _ | ⟨c, cs⟩
      · rw [natRepr_eq_natDigs] at hns
        exact natDigs_ne_nil n (by simpa [List.asString] using hns)
      · rw [hns] at hd
        have hc : c = '-' := by
          have : c :: cs = '-' :: (Nat.repr (m + 1)).data := by simpa using hd
          exact (List.cons.injEq _ _ _ _ ▸ this).1
        have := natRepr_chars n c (by rw [hns]; exact List.mem_cons_self _ _)
        exact this.1 hc
    | negSucc n =>
      rw [intToString_negSucc, intToString_negSucc] at h
      have hd := congrArg String.data h
      rw [String.data_append, String.data_append] at hd
      have hrepr : Nat.repr (m + 1) = Nat.repr (n + 1) := by
        apply String.ext
        simpa using hd
      have := natRepr_inj hrepr
      exact congrArg Int.negSucc (by omega)

theorem int_toString_no_sep (i : ℤ) : ∀ c ∈ (toString i).data, c ≠ '_' := by
  cases i with
  | ofNat m =>
    rw [intToString_ofNat]
    intro c hc
    exact (natRepr_chars m c hc).2
  | negSucc m =>
    rw [intToString_negSucc]
    intro c hc
    rw [String.data_append] at hc
    rcases List.mem_append.mp hc with hc | hc
    · have : c = '-' := by simpa using hc
      subst this
      decide
    · exact (natRepr_chars (m + 1) c hc).2

theorem sep_split {l1 l2 r1 r2 : List Char} (h1 : '_' ∉ l1) (h2 : '_' ∉ l2)
    (h : l1 ++ '_' :: r1 = l2 ++ '_' :: r2) : l1 = l2 ∧ r1 = r2 := by
  induction l1 generalizing l2 with
  | nil =>
    rcases l2 with _ | ⟨c, l2⟩
    · simpa using h
    · exfalso
      simp only [List.nil_append, List.cons_append, List.cons.injEq] at h
      exact h2 (h.1 ▸ List.mem_cons_self _ _)
  | cons c l1 ih =>
    rcases l2 with _ | ⟨c2, l2⟩
    · exfalso
      simp only [List.cons_append, List.nil_append, List.cons.injEq] at h
      exact h1 (h.1.symm ▸ List.mem_cons_self _ _)
    · simp only [List.cons_append, List.cons.injEq] at h
      obtain ⟨rfl, h⟩ := h
      have := ih (fun hc => h1 (List.mem_cons_of_mem _ hc))
        (fun hc => h2 (List.mem_cons_of_mem _ hc)) h
      exact ⟨by rw [this.1], this.2⟩

theorem pairKey_inj {p q : ℤ} {a b : String}
    (h : pairKey p a = pairKey q b) : p = q ∧ a = b := by
  unfold pairKey at h
  have hd := congrArg String.data h
  simp only [String.data_append] at hd
  simp only [List.append_assoc, List.singleton_append] at hd
  obtain ⟨hl, hr⟩ := sep_split (fun hc => int_toString_no_sep p '_' hc rfl)
    (fun hc => int_toString_no_sep q '_' hc rfl) hd
  exact ⟨int_toString_inj (String.ext hl), String.ext hr⟩

/-! ## Claim C10: position keys and the positions list -/

theorem pivot_keys_mem (rows : List (GroupKey × ℚ)) (ks : List GroupKey)
    (mat : Matrix) (s : String) :
    s ∈ dictKeys (ks.foldl (pivotStepR rows) mat)
    ↔ s ∈ dictKeys mat ∨ ∃ k ∈ ks, s = toString k.protein_start := by
  induction ks generalizing mat with
  | nil => simp
  | cons k ks ih =>
    rw [List.foldl_cons, ih, pivotStepR_eq, mem_dictKeys_insert]
    constructor
    · rintro ((h1 | rfl) | ⟨k', hk', rfl⟩)
      · exact Or.inl h1
      · exact Or.inr ⟨k, List.mem_cons_self _ _, rfl⟩
      · exact Or.inr ⟨k', List.mem_cons_of_mem _ hk', rfl⟩
    · rintro (h1 | ⟨k', hk', rfl⟩)
      · exact Or.inl (Or.inl h1)
      · rcases List.mem_cons.mp hk' with rfl | hk2
        · exact Or.inl (Or.inr rfl)
        · exact Or.inr ⟨k', hk2, rfl⟩

theorem pivot_keys_nodup (rows : List (GroupKey × ℚ)) (ks : List GroupKey)
    (mat : Matrix) (h : (dictKeys mat).Nodup) :
    (dictKeys (ks.foldl (pivotStepR rows) mat)).Nodup := by
  induction ks generalizing mat with
  | nil => exact h
  | cons k ks ih =>
    rw [List.foldl_cons]
    exact ih _ (by rw [pivotStepR_eq]; exact nodup_dictKeys_insert _ _ _ h)

theorem fill_keys_mem (ps : List ℤ) (mat : Matrix) (s : String) :
    s ∈ dictKeys (ps.foldl fillStepR mat)
    ↔ s ∈ dictKeys mat ∨ ∃ p ∈ ps, s = toString p := by
  induction ps generalizing mat with
  | nil => simp
  | cons p ps ih =>
    rw [List.foldl_cons, ih, fillStepR_eq, mem_dictKeys_insert]
    constructor
    · rintro ((h1 | rfl) | ⟨p', hp', rfl⟩)
      · exact Or.inl h1
      · exact Or.inr ⟨p, List.mem_cons_self _ _, rfl⟩
      · exact Or.inr ⟨p', List.mem_cons_of_mem _ hp', rfl⟩
    · rintro (h1 | ⟨p', hp', rfl⟩)
      · exact Or.inl (Or.inl h1)
      · rcases List.mem_cons.mp hp' with rfl | hp2
        · exact Or.inl (Or.inr rfl)
        · exact Or.inr ⟨p', hp2, rfl⟩

theorem fill_keys_nodup (ps : List ℤ) (mat : Matrix)
    (h : (dictKeys mat).Nodup) :
    (dictKeys (ps.foldl fillStepR mat)).Nodup := by
  induction ps generalizing mat with
  | nil => exact h
  | cons p ps ih =>
    rw [List.foldl_cons]
    exact ih _ (by rw [fillStepR_eq]; exact nodup_dictKeys_insert _ _ _ h)

theorem final_keys_mem (rows : List (GroupKey × ℚ)) (s : String) :
    s ∈ dictKeys (finalMatrixR rows) ↔ ∃ p ∈ allPositionsR rows, s = toString p := by
  unfold finalMatrixR pivotMatrixR
  rw [fill_keys_mem, pivot_keys_mem]
  constructor
  · rintro ((h0 | ⟨k, hk, rfl⟩) | hx)
    · simp [dictKeys] at h0
    · exact ⟨k.protein_start, pos_mem_allPositionsR rows k hk, rfl⟩
    · exact hx
  · intro hx
    exact Or.inr hx

theorem final_keys_nodup (rows : List (GroupKey × ℚ)) :
    (dictKeys (finalMatrixR rows)).Nodup := by
  unfold finalMatrixR pivotMatrixR
  exact fill_keys_nodup _ _ (pivot_keys_nodup _ _ _ (by simp [dictKeys]))

theorem allPositions_mem (rows : List (GroupKey × ℚ)) (p : ℤ) :
    p ∈ allPositionsR rows ↔ p ∈ rows.map fun r => r.1.protein_start := by
  rw [allPositionsR, (List.perm_insertionSort _ _).mem_iff, List.mem_dedup]

theorem allPositions_chain (rows : List (GroupKey × ℚ)) :
    List.Chain' (· < ·) (allPositionsR rows) := by
  have hs : List.Sorted (· ≤ ·) (allPositionsR rows) :=
    List.sorted_insertionSort _ _
  have hnd : (allPositionsR rows).Nodup :=
    ((List.perm_insertionSort _ _).nodup_iff).mpr (List.nodup_dedup _)
  rw [List.chain'_iff_pairwise]
  exact (hs.and hnd).imp fun hab => lt_of_le_of_ne hab.1 hab.2

theorem okPositions_cases (ms : List Measurement) (posList : List ℤ)
    (h : okPositions (process_heatmap_data ms) = some posList) :
    posList = allPositionsR (classified ms) := by
  unfold okPositions process_heatmap_data processRows at h
  rcases hap : allPositionsR (classified ms) with _ | ⟨p, ps⟩ <;> rw [hap] at h
  · simp [Except.toOption] at h
  · simp only [Except.toOption, Option.map_some'] at h
    exact ((Option.some.injEq _ _).mp h).symm

theorem okMatrixKeys_cases (ms : List Measurement) (mkeys : List String)
    (h : okMatrixKeys (process_heatmap_data ms) = some mkeys) :
    mkeys = dictKeys (finalMatrixR (classified ms)) := by
  unfold okMatrixKeys process_heatmap_data processRows at h
  rcases hap : allPositionsR (classified ms) with _ | ⟨p, ps⟩ <;> rw [hap] at h
  · simp [Except.toOption] at h
  · simp only [Except.toOption, Option.map_some'] at h
    exact ((Option.some.injEq _ _).mp h).symm

/-- C10, amended: the `positions` output is the strictly ascending list of
distinct positions having at least one canonical-amino-acid measurement
*with a mapped concentration*, and the matrix position keys are exactly
(one-to-one, via the injective decimal representation) the string forms of
those positions. -/
theorem claim_C10_positions (ms : List Measurement) (posList : List ℤ)
    (mkeys : List String) (p : ℤ)
    (h1 : okPositions (process_heatmap_data ms) = some posList)
    (h2 : okMatrixKeys (process_heatmap_data ms) = some mkeys) :
    List.Chain' (· < ·) posList
    ∧ (p ∈ posList ↔ p ∈ classifiedPositions ms)
    ∧ mkeys.Perm (posList.map fun q => toString q) := by
  obtain rfl := okPositions_cases ms posList h1
  obtain rfl := okMatrixKeys_cases ms mkeys h2
  refine ⟨allPositions_chain _, allPositions_mem _ p, ?_⟩
  have hnd2 : ((allPositionsR (classified ms)).map fun q => toString q).Nodup := by
    apply List.Nodup.map int_toString_inj
    exact ((List.perm_insertionSort _ _).nodup_iff).mpr (List.nodup_dedup _)
  apply (List.perm_ext_iff_of_nodup (final_keys_nodup _) hnd2).mpr
  intro s
  rw [final_keys_mem, List.mem_map]
  constructor
  · rintro ⟨q, hq, rfl⟩
    exact ⟨q, hq, rfl⟩
  · rintro ⟨q, hq, rfl⟩
    exact ⟨q, hq, rfl⟩

/-- Witness for C10 at the scenario input. -/
theorem claim_C10_witness :
    List.Chain' (· < ·) [(315 : ℤ)]
    ∧ ((315 : ℤ) ∈ [(315 : ℤ)] ↔ (315 : ℤ) ∈ classifiedPositions [exRep1, exRep2])
    ∧ (["315"] : List String).Perm ([(315 : ℤ)].map fun q => toString q) :=
  claim_C10_positions [exRep1, exRep2] [315] ["315"] 315 rfl rfl

/-- C10, counterexample to the claim as stated: position 7 carries a
canonical-amino-acid measurement, but its concentration 17 is unmapped, so
7 is absent from the `positions` output, while the claim's reading (all
positions with a canonical measurement) would include it. -/
theorem claim_C10_cex :
    okPositions (process_heatmap_data [exPos3, exPos7]) = some [3]
    ∧ spec_canonicalObservedPositions [exPos3, exPos7] = [3, 7]
    ∧ ([3] : List ℤ) ≠ [3, 7] :=
  ⟨rfl, rfl, by simp⟩

/-! ## Claim C3: the variant lookup -/

theorem mem_iff_dictGet {V : Type} (d : List (String × V))
    (h : (dictKeys d).Nodup) (k : String) (v : V) :
    (k, v) ∈ d ↔ dictGet d k = some v := by
  induction d with
  | nil => simp [dictGet]
  | cons p rest ih =>
    rcases p with ⟨k1, v1⟩
    have hnd : (dictKeys rest).Nodup := (List.nodup_cons.mp h).2
    have hk1 : k1 ∉ dictKeys rest := (List.nodup_cons.mp h).1
    by_cases hk : k1 = k
    · subst hk
      simp only [dictGet, List.mem_cons]
      constructor
      · rintro (hp | hp)
        · simp [((Prod.mk.injEq _ _ _ _).mp hp).2]
        · exact absurd (List.mem_map.mpr ⟨(k1, v), hp, rfl⟩) hk1
      · intro hv
        refine Or.inl ?_
        have hv1 : some v1 = some v := by simpa using hv
        rw [(Option.some.injEq _ _).mp hv1]
    · simp only [dictGet, if_neg hk, List.mem_cons]
      rw [← ih hnd]
      constructor
      · rintro (hp | hp)
        · exact absurd ((Prod.mk.injEq _ _ _ _).mp hp).1.symm hk
        · exact hp
      · exact fun hp => Or.inr hp

theorem pivot_keysOK (ms : List Measurement) :
    KeysOK (pivotMatrixR (classified ms)) := by
  unfold pivotMatrixR
  apply pivot_keys_inv _ _ (alt_mem_canonical_of_mem_grouped ms)
  intro P inner hP
  simp [dictGet] at hP

theorem pivot_cellsOK (ms : List Measurement) :
    CellsOK (fun c => CellW (classified ms) c ∧ c.ref_aa ≠ none)
      (pivotMatrixR (classified ms)) := by
  unfold pivotMatrixR
  apply pivot_cells_inv _ _ (fun k hk => hk)
  intro P inner aa c hP hc
  simp [dictGet] at hP

theorem pivot_slot (rows : List (GroupKey × ℚ)) (ks : List GroupKey)
    (mat : Matrix) (P aa : String) :
    (∃ inner, dictGet (ks.foldl (pivotStepR rows) mat) P = some inner
      ∧ (dictGet inner aa).isSome)
    ↔ (∃ inner, dictGet mat P = some inner ∧ (dictGet inner aa).isSome)
      ∨ ∃ k ∈ ks, P = toString k.protein_start ∧ aa = k.alt_aa := by
  induction ks generalizing mat with
  | nil => simp
  | cons k ks ih =>
    rw [List.foldl_cons, ih]
    have hstep : (∃ inner, dictGet (pivotStepR rows mat k) P = some inner
        ∧ (dictGet inner aa).isSome)
        ↔ (∃ inner, dictGet mat P = some inner ∧ (dictGet inner aa).isSome)
          ∨ (P = toString k.protein_start ∧ aa = k.alt_aa) := by
      by_cases hP : P = toString k.protein_start
      · subst hP
        constructor
        · rintro ⟨inner, hinner, hsome⟩
          rw [pivotStepR_eq, dictGet_insert_self] at hinner
          injection hinner with hi
          subst hi
          by_cases haa : aa = k.alt_aa
          · exact Or.inr ⟨rfl, haa⟩
          · rw [dictGet_insert_ne _ _ haa] at hsome
            rcases hio : dictGet mat (toString k.protein_start) with _ | io
            · exfalso
              rw [pivotInnerOld, hio] at hsome
              simp [dictGet] at hsome
            · rw [pivotInnerOld, hio, Option.getD_some] at hsome
              exact Or.inl ⟨io, rfl, hsome⟩
        · rintro (⟨inner, hinner, hsome⟩ | ⟨_, haa⟩)
          · refine ⟨dictInsert (pivotInnerOld mat k) k.alt_aa (pivotCell rows mat k),
              by rw [pivotStepR_eq, dictGet_insert_self], ?_⟩
            by_cases haa : aa = k.alt_aa
            · subst haa
              rw [dictGet_insert_self]
              rfl
            · rw [dictGet_insert_ne _ _ haa,
                show pivotInnerOld mat k = inner by
                  rw [pivotInnerOld, hinner, Option.getD_some]]
              exact hsome
          · subst haa
            refine ⟨dictInsert (pivotInnerOld mat k) k.alt_aa (pivotCell rows mat k),
              by rw [pivotStepR_eq, dictGet_insert_self], ?_⟩
            rw [dictGet_insert_self]
            rfl
      · constructor
        · rintro ⟨inner, hinner, hsome⟩
          rw [pivotStepR_eq, dictGet_insert_ne _ _ hP] at hinner
          exact Or.inl ⟨inner, hinner, hsome⟩
        · rintro (⟨inner, hinner, hsome⟩ | ⟨hPk, _⟩)
          · exact ⟨inner, by rw [pivotStepR_eq, dictGet_insert_ne _ _ hP]; exact hinner,
              hsome⟩
          · exact absurd hPk hP
    rw [hstep]
    constructor
    · rintro ((h1 | ⟨hpk, haa⟩) | ⟨k', hk', hpa⟩)
      · exact Or.inl h1
      · exact Or.inr ⟨k, List.mem_cons_self _ _, hpk, haa⟩
      · exact Or.inr ⟨k', List.mem_cons_of_mem _ hk', hpa⟩
    · rintro (h1 | ⟨k', hk', hpa⟩)
      · exact Or.inl (Or.inl h1)
      · rcases List.mem_cons.mp hk' with rfl | hk2
        · exact Or.inl (Or.inr hpa)
        · exact Or.inr ⟨k', hk2, hpa⟩

theorem lookupStep_eq_none (pstr : String) (lk : List (String × LookupEntry))
    (ac : String × AACell) (h : ac.2.ref_aa = none) :
    lookupStep pstr lk ac = lk := by
  unfold lookupStep
  rw [h]

theorem lookupStep_eq_some (pstr : String) (lk : List (String × LookupEntry))
    (ac : String × AACell) (r : String) (h : ac.2.ref_aa = some r) :
    lookupStep pstr lk ac
      = if ac.1 ≠ "ref_aa" ∧ r ≠ "" then
          dictInsert lk (pstr ++ "_" ++ ac.1) (mkLookupEntry pstr ac.1 ac.2 r)
        else lk := by
  unfold lookupStep
  rw [h]

theorem lookupStep_mem (pstr : String) (lk : List (String × LookupEntry))
    (ac : String × AACell) (s : String) :
    s ∈ dictKeys (lookupStep pstr lk ac)
    ↔ s ∈ dictKeys lk ∨ (EntryGuard ac ∧ s = pstr ++ "_" ++ ac.1) := by
  rcases href : ac.2.ref_aa with _ | r
  · rw [lookupStep_eq_none _ _ _ href]
    simp [EntryGuard, href]
  · rw [lookupStep_eq_some _ _ _ _ href]
    by_cases hg : ac.1 ≠ "ref_aa" ∧ r ≠ ""
    · rw [if_pos hg, mem_dictKeys_insert]
      constructor
      · rintro (h1 | rfl)
        · exact Or.inl h1
        · exact Or.inr ⟨⟨r, href, hg.1, hg.2⟩, rfl⟩
      · rintro (h1 | ⟨_, rfl⟩)
        · exact Or.inl h1
        · exact Or.inr rfl
    · rw [if_neg hg]
      constructor
      · exact Or.inl
      · rintro (h1 | ⟨⟨r', hr', hga, hgr⟩, rfl⟩)
        · exact h1
        · rw [href] at hr'
          exact absurd ⟨hga, ((Option.some.injEq _ _).mp hr') ▸ hgr⟩ hg

theorem lookup_inner_mem (pstr : String) (inner : List (String × AACell))
    (lk : List (String × LookupEntry)) (s : String) :
    s ∈ dictKeys (inner.foldl (lookupStep pstr) lk)
    ↔ s ∈ dictKeys lk ∨ ∃ ac ∈ inner, EntryGuard ac ∧ s = pstr ++ "_" ++ ac.1 := by
  induction inner generalizing lk with
  | nil => simp
  | cons ac inner ih =>
    rw [List.foldl_cons, ih, lookupStep_mem]
    constructor
    · rintro ((h1 | ⟨hg, rfl⟩) | ⟨ac', hac', hga⟩)
      · exact Or.inl h1
      · exact Or.inr ⟨ac, List.mem_cons_self _ _, hg, rfl⟩
      · exact Or.inr ⟨ac', List.mem_cons_of_mem _ hac', hga⟩
    · rintro (h1 | ⟨ac', hac', hga⟩)
      · exact Or.inl (Or.inl h1)
      · rcases List.mem_cons.mp hac' with rfl | hac2
        · exact Or.inl (Or.inr ⟨hga.1, hga.2⟩)
        · exact Or.inr ⟨ac', hac2, hga⟩

theorem lookup_outer_mem (mat : Matrix) (lk : List (String × LookupEntry))
    (s : String) :
    s ∈ dictKeys (mat.foldl (fun lk pr => pr.2.foldl (lookupStep pr.1) lk) lk)
    ↔ s ∈ dictKeys lk
      ∨ ∃ pr ∈ mat, ∃ ac ∈ pr.2, EntryGuard ac ∧ s = pr.1 ++ "_" ++ ac.1 := by
  induction mat generalizing lk with
  | nil => simp
  | cons pr mat ih =>
    rw [List.foldl_cons, ih, lookup_inner_mem]
    constructor
    · rintro ((h1 | hpr) | ⟨pr', hpr', hx⟩)
      · exact Or.inl h1
      · exact Or.inr ⟨pr, List.mem_cons_self _ _, hpr⟩
      · exact Or.inr ⟨pr', List.mem_cons_of_mem _ hpr', hx⟩
    · rintro (h1 | ⟨pr', hpr', hx⟩)
      · exact Or.inl (Or.inl h1)
      · rcases List.mem_cons.mp hpr' with rfl | hpr2
        · exact Or.inl (Or.inr hx)
        · exact Or.inr ⟨pr', hpr2, hx⟩

theorem lookupStep_nodup (pstr : String) (lk : List (String × LookupEntry))
    (ac : String × AACell) (h : (dictKeys lk).Nodup) :
    (dictKeys (lookupStep pstr lk ac)).Nodup := by
  rcases href : ac.2.ref_aa with _ | r
  · rw [lookupStep_eq_none _ _ _ href]
    exact h
  · rw [lookupStep_eq_some _ _ _ _ href]
    by_cases hg : ac.1 ≠ "ref_aa" ∧ r ≠ ""
    · rw [if_pos hg]
      exact nodup_dictKeys_insert _ _ _ h
    · rw [if_neg hg]
      exact h

theorem lookup_inner_nodup (pstr : String) (inner : List (String × AACell))
    (lk : List (String × LookupEntry)) (h : (dictKeys lk).Nodup) :
    (dictKeys (inner.foldl (lookupStep pstr) lk)).Nodup := by
  induction inner generalizing lk with
  | nil => exact h
  | cons ac inner ih =>
    rw [List.foldl_cons]
    exact ih _ (lookupStep_nodup _ _ _ h)

theorem lookup_outer_nodup (mat : Matrix) (lk : List (String × LookupEntry))
    (h : (dictKeys lk).Nodup) :
    (dictKeys (mat.foldl (fun lk pr => pr.2.foldl (lookupStep pr.1) lk) lk)).Nodup := by
  induction mat generalizing lk with
  | nil => exact h
  | cons pr mat ih =>
    rw [List.foldl_cons]
    exact ih _ (lookup_inner_nodup _ _ _ h)

theorem append_ne_empty_left (a b : String) (h : a ≠ "") : a ++ b ≠ "" := by
  intro hc
  apply h
  have hd := congrArg String.data hc
  rw [String.data_append] at hd
  have ha : a.data = [] := (List.append_eq_nil.mp hd).1
  exact String.ext (by rw [ha])

theorem mkLookupEntry_id_ne (pstr aa : String) (c : AACell) (r : String)
    (hr : r ≠ "") : (mkLookupEntry pstr aa c r).id ≠ "" := by
  have hrv : (if r = "X" then "?" else r) ≠ "" := by
    split_ifs with hx
    · decide
    · exact hr
  exact append_ne_empty_left _ _ (append_ne_empty_left _ _ hrv)

theorem lookupStep_values (pstr : String) (lk : List (String × LookupEntry))
    (ac : String × AACell)
    (h : ∀ key e, dictGet lk key = some e → e.id ≠ "") :
    ∀ key e, dictGet (lookupStep pstr lk ac) key = some e → e.id ≠ "" := by
  intro key e he
  rcases href : ac.2.ref_aa with _ | r
  · rw [lookupStep_eq_none _ _ _ href] at he
    exact h key e he
  · rw [lookupStep_eq_some _ _ _ _ href] at he
    by_cases hg : ac.1 ≠ "ref_aa" ∧ r ≠ ""
    · rw [if_pos hg] at he
      rcases dictGet_insert_cases _ _ _ _ _ he with ⟨_, rfl⟩ | hold
      · exact mkLookupEntry_id_ne _ _ _ _ hg.2
      · exact h key e hold
    · rw [if_neg hg] at he
      exact h key e he

theorem lookup_inner_values (pstr : String) (inner : List (String × AACell))
    (lk : List (String × LookupEntry))
    (h : ∀ key e, dictGet lk key = some e → e.id ≠ "") :
    ∀ key e, dictGet (inner.foldl (lookupStep pstr) lk) key = some e → e.id ≠ "" := by
  induction inner generalizing lk with
  | nil => exact h
  | cons ac inner ih =>
    rw [List.foldl_cons]
    exact ih _ (lookupStep_values _ _ _ h)

theorem lookup_outer_values (mat : Matrix) (lk : List (String × LookupEntry))
    (h : ∀ key e, dictGet lk key = some e → e.id ≠ "") :
    ∀ key e,
      dictGet (mat.foldl (fun lk pr => pr.2.foldl (lookupStep pr.1) lk) lk) key = some e
      → e.id ≠ "" := by
  induction mat generalizing lk with
  | nil => exact h
  | cons pr mat ih =>
    rw [List.foldl_cons]
    exact ih _ (lookup_inner_values _ _ _ h)

theorem pivot_matrix_keys_nodup (ms : List Measurement) :
    (dictKeys (pivotMatrixR (classified ms))).Nodup := by
  unfold pivotMatrixR
  exact pivot_keys_nodup _ _ _ (by simp [dictKeys])

theorem pivot_entryGuard (ms : List Measurement) (P : String)
    (inner : List (String × AACell)) (aa : String) (c : AACell)
    (hin : dictGet (pivotMatrixR (classified ms)) P = some inner)
    (hc : dictGet inner aa = some c) : EntryGuard (aa, c) := by
  have hcell := pivot_cellsOK ms P inner aa c hin hc
  have haaK : aa ∈ get_canonical_amino_acids :=
    (pivot_keysOK ms P inner hin).1 aa
      ((isSome_dictGet_iff _ _).mp (by rw [hc]; rfl))
  rcases hcell.1.2.2.2 with hnone | ⟨k', hk', hco⟩
  · exact absurd hnone hcell.2
  · refine ⟨refCoerce k'.ref_aa, hco, ?_, refCoerce_ne_empty _⟩
    intro haa
    subst haa
    exact absurd haaK (by decide)

theorem lookup_keys_char (ms : List Measurement) (s : String) :
    s ∈ dictKeys (lookupOf (pivotMatrixR (classified ms)))
    ↔ ∃ pr ∈ classifiedPairs ms, s = pairKey pr.1 pr.2 := by
  unfold lookupOf
  rw [lookup_outer_mem]
  constructor
  · rintro (h0 | ⟨pr, hpr, ac, hac, hg, rfl⟩)
    · simp [dictKeys] at h0
    · have hprget : dictGet (pivotMatrixR (classified ms)) pr.1 = some pr.2 :=
        (mem_iff_dictGet _ (pivot_matrix_keys_nodup ms) pr.1 pr.2).mp
          (by rwa [Prod.mk.eta])
      have hinnerND : (dictKeys pr.2).Nodup := (pivot_keysOK ms pr.1 pr.2 hprget).2
      have hacget : dictGet pr.2 ac.1 = some ac.2 :=
        (mem_iff_dictGet _ hinnerND ac.1 ac.2).mp (by rwa [Prod.mk.eta])
      have hslot := (pivot_slot (classified ms) (groupedKeysR (classified ms))
          [] pr.1 ac.1).mp
        ⟨pr.2, by rw [show (groupedKeysR (classified ms)).foldl
            (pivotStepR (classified ms)) [] = pivotMatrixR (classified ms) from rfl,
            hprget], by rw [hacget]; rfl⟩
      rcases hslot with ⟨inner0, hget0, _⟩ | ⟨k, hk, hP, haa⟩
      · simp [dictGet] at hget0
      · refine ⟨(k.protein_start, k.alt_aa), ?_, ?_⟩
        · unfold classifiedPairs
          rcases List.mem_map.mp ((mem_groupedKeysR _ _).mp hk) with ⟨r, hr, hrk⟩
          exact List.mem_map.mpr ⟨r, hr, by rw [hrk]⟩
        · rw [hP, haa]
          rfl
  · rintro ⟨⟨p, aa⟩, hpr, rfl⟩
    rcases List.mem_map.mp hpr with ⟨row, hrow, hpa⟩
    have hk : row.1 ∈ groupedKeysR (classified ms) :=
      (mem_groupedKeysR _ _).mpr (List.mem_map.mpr ⟨row, hrow, rfl⟩)
    have hslot := (pivot_slot (classified ms) (groupedKeysR (classified ms)) []
        (toString row.1.protein_start) row.1.alt_aa).mpr (Or.inr ⟨row.1, hk, rfl, rfl⟩)
    rcases hslot with ⟨inner, hinner, hsome⟩
    have hinner' : dictGet (pivotMatrixR (classified ms))
        (toString row.1.protein_start) = some inner := hinner
    rcases hsget : dictGet inner row.1.alt_aa with _ | c
    · rw [hsget] at hsome
      simp at hsome
    · have hg := pivot_entryGuard ms _ inner _ c hinner' hsget
      have hinnerND : (dictKeys inner).Nodup :=
        (pivot_keysOK ms _ inner hinner').2
      refine Or.inr ⟨(toString row.1.protein_start, inner),
        (mem_iff_dictGet _ (pivot_matrix_keys_nodup ms) _ _).mpr hinner',
        (row.1.alt_aa, c), (mem_iff_dictGet _ hinnerND _ _).mpr hsget, hg, ?_⟩
      have hp1 : row.1.protein_start = p := ((Prod.mk.injEq _ _ _ _).mp hpa).1
      have ha1 : row.1.alt_aa = aa := ((Prod.mk.injEq _ _ _ _).mp hpa).2
      rw [← hp1, ← ha1]
      rfl

theorem pairKey_pair_injective :
    Function.Injective (fun pr : ℤ × String => pairKey pr.1 pr.2) := by
  rintro ⟨p, a⟩ ⟨q, b⟩ h
  obtain ⟨h1, h2⟩ := pairKey_inj h
  simp only at h1 h2
  rw [Prod.mk.injEq]
  exact ⟨h1, h2⟩

theorem okLookupKeys_cases (ms : List Measurement) (ks : List String)
    (h : okLookupKeys (process_heatmap_data ms) = some ks) :
    ks = dictKeys (lookupOf (pivotMatrixR (classified ms))) := by
  unfold okLookupKeys process_heatmap_data processRows at h
  rcases hap : allPositionsR (classified ms) with _ | ⟨p, ps⟩ <;> rw [hap] at h
  · simp [Except.toOption] at h
  · simp only [Except.toOption, Option.map_some'] at h
    exact ((Option.some.injEq _ _).mp h).symm

theorem okLookupId_cases (ms : List Measurement) (key i : String)
    (h : okLookupId (process_heatmap_data ms) key = some i) :
    ∃ e, dictGet (lookupOf (pivotMatrixR (classified ms))) key = some e
      ∧ i = e.id := by
  unfold okLookupId process_heatmap_data processRows at h
  rcases hap : allPositionsR (classified ms) with _ | ⟨p, ps⟩ <;> rw [hap] at h
  · simp [Except.toOption] at h
  · simp only [Except.toOption, Option.some_bind] at h
    rcases hget : dictGet (lookupOf (pivotMatrixR (classified ms))) key with _ | e <;>
      rw [hget] at h
    · simp at h
    · simp only [Option.map_some'] at h
      exact ⟨e, rfl, ((Option.some.injEq _ _).mp h).symm⟩

/-- C3, amended: the variant lookup has exactly one entry per observed
`(position, alternate amino acid)` pair of the classified measurements
(not `|positions| × 20`: it is built before gap filling, so null-filled
pairs are absent), and every entry's id is a non-empty string. -/
theorem claim_C3_variant_lookup (ms : List Measurement) (ks : List String)
    (key i : String)
    (h1 : okLookupKeys (process_heatmap_data ms) = some ks)
    (h2 : okLookupId (process_heatmap_data ms) key = some i) :
    ks.Perm ((classifiedPairs ms).dedup.map fun pr => pairKey pr.1 pr.2)
    ∧ i ≠ "" := by
  obtain rfl := okLookupKeys_cases ms ks h1
  constructor
  · have hndL : (dictKeys (lookupOf (pivotMatrixR (classified ms)))).Nodup := by
      unfold lookupOf
      exact lookup_outer_nodup _ _ (by simp [dictKeys])
    have hndR : (((classifiedPairs ms).dedup.map
        fun pr => pairKey pr.1 pr.2)).Nodup :=
      (List.nodup_dedup _).map pairKey_pair_injective
    apply (List.perm_ext_iff_of_nodup hndL hndR).mpr
    intro s
    rw [lookup_keys_char, List.mem_map]
    constructor
    · rintro ⟨pr, hpr, rfl⟩
      exact ⟨pr, List.mem_dedup.mpr hpr, rfl⟩
    · rintro ⟨pr, hpr, rfl⟩
      exact ⟨pr, List.mem_dedup.mp hpr, rfl⟩
  · obtain ⟨e, hge, rfl⟩ := okLookupId_cases ms key i h2
    refine lookup_outer_values _ [] ?_ key e (by
      rw [show (pivotMatrixR (classified ms)).foldl
        (fun lk pr => pr.2.foldl (lookupStep pr.1) lk) []
        = lookupOf (pivotMatrixR (classified ms)) from rfl]
      exact hge)
    intro key' e' h'
    simp [dictGet] at h'

/-- Witness for C3 at the scenario input: one observed pair, one entry,
with the non-empty id `T315I`. -/
theorem claim_C3_witness :
    (["315_I"] : List String).Perm
      ((classifiedPairs [exRep1, exRep2]).dedup.map fun pr => pairKey pr.1 pr.2)
    ∧ "T315I" ≠ "" :=
  claim_C3_variant_lookup [exRep1, exRep2] ["315_I"] "315_I" "T315I" rfl rfl

/-- C3, counterexample to the claim as stated: a single observed pair
yields one lookup entry, not `|observedPositions| × 20 = 20`. -/
theorem claim_C3_cex :
    okLookupLen (process_heatmap_data [exRep1]) = some 1
    ∧ okPositions (process_heatmap_data [exRep1]) = some [315]
    ∧ (1 : ℕ) ≠ [(315 : ℤ)].length * 20 :=
  ⟨rfl, rfl, by norm_num⟩

end AtlasBio
